import Mathlib

/-!
# Chat server: session and message-routing engine

A shallow embedding of the Go packages `internal/message`, `internal/database`,
`internal/history`, `internal/tcp` and `internal/udp`, and theorems about them.

Modelling conventions.

* A Go `string` is a Lean `String`; `fmt.Sprintf` with `%s` verbs is string
  concatenation.
* A Go `error` value is `Option String`: `none` is `nil`, `some t` is an error
  whose `Error()` text is `t`.
* A run-time panic, and a goroutine that blocks for ever on a `sync.Mutex` it
  already holds, are the two values of `Fault`; code that can hit one returns
  `Except Fault _`.
* `map[string]net.Conn` is an association list; Go iterates a map in an
  unspecified order, the model iterates in list order.
* A connection is identified by a number.  Every `conn.Write` call is recorded
  in the order it is made; whether it returns an error is decided by the
  connection being closed or by a caller-supplied failure pattern.
* `time.Now()` formatted as a timestamp is a parameter of the function that
  reads the clock.
* A send on the buffered channel `msgChan` is modelled by its completion: the
  message is appended to the queue.
* Each function is the sequential code of one goroutine, run without interleaving
  from the state it finds; `usersMu` is a field of that state, so a `Lock` on the
  free mutex succeeds and a `Lock` by the goroutine that holds it never returns.
-/

namespace Chat

/-- The ways a goroutine can fail to continue: a self-deadlock on a mutex, or a panic. -/
inductive Fault where
  | deadlock
  | panic
deriving DecidableEq, Repr

/-! ## package strings -/

/-- White space as `unicode.IsSpace` defines it. -/
def isSpace (c : Char) : Bool :=
  c = '\t' || c = '\n' || c.val = 0x0B || c.val = 0x0C || c = '\r' || c = ' ' ||
  c.val = 0x85 || c.val = 0xA0 || c.val = 0x1680 || (0x2000 ≤ c.val && c.val ≤ 0x200A) ||
  c.val = 0x2028 || c.val = 0x2029 || c.val = 0x202F || c.val = 0x205F || c.val = 0x3000

/-- Scanner behind `Fields`: `cur` is the field being read, most recent character first. -/
def fieldsGo : List Char → List Char → List String
  | [], cur => if cur.isEmpty then [] else [String.mk cur.reverse]
  | c :: cs, cur =>
    if isSpace c then
      if cur.isEmpty then fieldsGo cs [] else String.mk cur.reverse :: fieldsGo cs []
    else fieldsGo cs (c :: cur)

/-- Model of `strings.Fields`: the maximal runs of non-space characters. -/
def Fields (s : String) : List String := fieldsGo s.data []

/-- Model of `strings.Join`. -/
def Join : List String → String → String
  | [], _ => ""
  | [a], _ => a
  | a :: b :: rest, sep => a ++ sep ++ Join (b :: rest) sep

/-- Model of `strings.HasPrefix`. -/
def HasPrefix (s pre : String) : Bool := pre.data.isPrefixOf s.data

/-- Model of `strings.TrimSpace`. -/
def TrimSpace (s : String) : String :=
  String.mk ((s.data.dropWhile isSpace).reverse.dropWhile isSpace).reverse

/-! ## package message -/

/-- The three kinds of message (`MessageType`). -/
inductive MessageType where
  | TypeSystem
  | TypeUser
  | TypePrivate
deriving DecidableEq, Repr

/-- A chat message; `Typ` is the Go field `Type`. -/
structure Message where
  Typ : MessageType
  From : String
  Target : String
  Content : String
deriving DecidableEq, Repr

/-- System message constructor. -/
def NewSystemMessage (content : String) : Message :=
  { Typ := .TypeSystem, From := "", Target := "", Content := "[SYSTEM] " ++ content }

/-- User (broadcast) message constructor. -/
def NewUserMessage (frm content : String) : Message :=
  { Typ := .TypeUser, From := frm, Target := "", Content := "[" ++ frm ++ "] " ++ content }

/-- Private message constructor. -/
def NewPrivateMessage (frm target content : String) : Message :=
  { Typ := .TypePrivate, From := frm, Target := target,
    Content := "[PRIVATE from " ++ frm ++ "] " ++ content }

/-- The rendered text of a message. -/
def Message.String (m : Message) : String := m.Content

/-! ## package database -/

/-- One row of the `messages` table, without its autoincrement id. -/
structure Row where
  from_username : String
  to_username : String
  content : String
  timestamp : String
deriving DecidableEq, Repr

/-- The store: the `messages` table in id order, and the outcomes of the statements
still to be executed (`some e`: the driver fails that statement with error text `e`;
an exhausted script means success). -/
structure DB where
  messages : List Row
  faults : List (Option String)
deriving DecidableEq, Repr

/-- Model of `DB.SaveMessage`: one `INSERT`, which either appends a row or fails. -/
def DB.SaveMessage (db : DB) (frm dst content timestamp : String) : DB × Option String :=
  match db.faults with
  | some e :: rest => ({ db with faults := rest }, some ("failed to save message: " ++ e))
  | none :: rest =>
    ({ messages := db.messages ++ [⟨frm, dst, content, timestamp⟩], faults := rest }, none)
  | [] => ({ db with messages := db.messages ++ [⟨frm, dst, content, timestamp⟩] }, none)

/-- The string `LoadRecentMessages` builds from one row: `fmt.Sprintf("[%s] %s", timestamp,
content)`. -/
def formatRow (r : Row) : String := "[" ++ r.timestamp ++ "] " ++ r.content

/-- Model of `DB.LoadRecentMessages`: one `SELECT ... ORDER BY id DESC LIMIT ?`, which
fails or yields the rows newest first (every row for a negative limit); each row scanned
is formatted and put in front of the rows scanned before it.  All four columns of a row
hold text, so `Scan` does not fail. -/
def DB.LoadRecentMessages (db : DB) (limit : Int) : DB × Except String (List String) :=
  match db.faults with
  | some e :: rest =>
    ({ db with faults := rest }, .error ("failed to load recent messages: " ++ e))
  | outcomes =>
    let rows := if limit < 0 then db.messages.reverse
      else db.messages.reverse.take limit.toNat
    ({ db with faults := outcomes.tail },
      .ok (rows.foldl (fun messages r => [formatRow r] ++ messages) []))

/-- Whether the next statement executed on the store fails. -/
def DB.nextFails (db : DB) : Bool :=
  match db.faults with
  | some _ :: _ => true
  | _ => false

/-! ## package history -/

/-- The history: the in-memory slice, its capacity, the store behind it, and what its
methods have printed on standard output. -/
structure History where
  messages : List String
  capacity : Int
  db : DB
  stdout : List String
deriving DecidableEq, Repr

/-- The slice expression `xs[1:]`, which panics on an empty slice. -/
def sliceFrom1 {α : Type} : List α → Except Fault (List α)
  | [] => .error .panic
  | _ :: rest => .ok rest

/-- Model of `History.Add`. -/
def History.Add (h : History) (msg frm dst timestamp : String) : Except Fault History :=
  match (if (h.messages.length : Int) ≥ h.capacity then sliceFrom1 h.messages
         else .ok h.messages) with
  | .error f => .error f
  | .ok kept =>
    let messages := kept ++ [msg]
    match h.db.SaveMessage frm dst msg timestamp with
    | (db, some err) =>
      .ok { h with messages := messages, db := db,
                   stdout := h.stdout ++ ["Failed to save message to DB: " ++ err ++ "\n"] }
    | (db, none) => .ok { h with messages := messages, db := db }

/-- Model of `History.GetAll`: a copy of the slice. -/
def History.GetAll (h : History) : List String := h.messages

/-- Model of `History.loadFromDB`: on a store error the slice is left as it is. -/
def History.loadFromDB (h : History) : History :=
  match h.db.LoadRecentMessages h.capacity with
  | (db, .error err) =>
    { h with db := db,
             stdout := h.stdout ++ ["Failed to load history from DB: " ++ err ++ "\n"] }
  | (db, .ok messages) => { h with db := db, messages := messages }

/-- The largest capacity that `runtime.makeslice` accepts for a `[]string` on a 64-bit
platform, 2^44: string headers of 16 bytes within `maxAlloc`, 2^48 bytes. -/
def makesliceMaxCap : Nat := 17592186044416

/-- Model of `history.New`.  `make([]string, 0, capacity)` panics on a negative capacity
and on one above `makesliceMaxCap` ("makeslice: cap out of range"), and below that bound
the allocation fails, which stops the process as well, above `allocCap`, the largest
capacity that the machine has memory for. -/
def History.New (allocCap : Nat) (capacity : Int) (db : DB) : Except Fault History :=
  if capacity < 0 ∨ capacity > ((min allocCap makesliceMaxCap : Nat) : Int) then .error .panic
  else .ok (History.loadFromDB { messages := [], capacity := capacity, db := db, stdout := [] })

/-- One `Add` call: rendered text, from, to, timestamp. -/
structure AddCall where
  msg : String
  frm : String
  dst : String
  timestamp : String
deriving DecidableEq, Repr

/-- The row that an `Add` call appends to the store. -/
def AddCall.row (a : AddCall) : Row :=
  { from_username := a.frm, to_username := a.dst, content := a.msg, timestamp := a.timestamp }

/-- The entry that a later load makes of an `Add` call: its timestamp in brackets, then
its text. -/
def AddCall.reloaded (a : AddCall) : String := "[" ++ a.timestamp ++ "] " ++ a.msg

/-- A sequence of `Add` calls, stopping at the first fault. -/
def History.addAll (h : History) : List AddCall → Except Fault History
  | [] => .ok h
  | a :: rest =>
    match h.Add a.msg a.frm a.dst a.timestamp with
    | .error f => .error f
    | .ok h' => History.addAll h' rest

/-- The last `k` elements of a list, in order. -/
def lastN {α : Type} (k : Nat) (l : List α) : List α := l.drop (l.length - k)

/-! ## package tcp -/

/-- Identity of a `net.Conn`. -/
abbrev Conn := Nat

/-- The text of `ErrUsernameTaken`. -/
def ErrUsernameTaken : String := "ERR001: username already taken"

/-- The text of `ErrAuthFailed`. -/
def ErrAuthFailed : String := "ERR002: authentication failed"

/-- The text of `ErrInvalidCommand`. -/
def ErrInvalidCommand : String := "ERR003: invalid command"

/-- Map read `m[k]` with the comma-ok form: the value of the first entry under `k`. -/
def mapLookup : List (String × Conn) → String → Option Conn
  | [], _ => none
  | (k', v) :: rest, k => if k' = k then some v else mapLookup rest k

/-- Map deletion `delete(m, k)`. -/
def mapDelete (m : List (String × Conn)) (k : String) : List (String × Conn) :=
  m.filter (fun e => e.1 ≠ k)

/-- Map assignment `m[k] = v`: the entry under `k` is replaced, or a new one is added. -/
def mapSet : List (String × Conn) → String → Conn → List (String × Conn)
  | [], k, v => [(k, v)]
  | (k', v') :: rest, k, v => if k' = k then (k, v) :: rest else (k', v') :: mapSet rest k v

/-- The indexing expression `xs[i]`, which panics when `i` is out of range. -/
def index {α : Type} (xs : List α) (i : Nat) : Except Fault α :=
  match xs.get? i with
  | some x => .ok x
  | none => .error .panic

/-- The server: the fields `history`, `users`, `usersMu` (true while held) and `msgChan`
(the queue, oldest first) of the Go struct, and the effects on the outside world: every
`conn.Write` call in order (`writes`), the connections closed so far, and the lines
handed to the logger. -/
structure Server where
  history : History
  users : List (String × Conn)
  usersMu : Bool
  msgChan : List Message
  writes : List (Conn × String)
  closed : List Conn
  log : List String
deriving DecidableEq, Repr

/-- Model of `NewServer`: empty registry and queue, free mutex. -/
def NewServer (hist : History) : Server :=
  { history := hist, users := [], usersMu := false, msgChan := [], writes := [],
    closed := [], log := [] }

/-- `s.usersMu.Lock()`: a goroutine that locks the mutex while holding it blocks for ever. -/
def Server.Lock (s : Server) : Except Fault Server :=
  if s.usersMu then .error .deadlock else .ok { s with usersMu := true }

/-- `s.usersMu.Unlock()`: unlocking a free mutex is a fatal run-time error. -/
def Server.Unlock (s : Server) : Except Fault Server :=
  if s.usersMu then .ok { s with usersMu := false } else .error .panic

/-- `conn.Write(data)` after `conn.SetWriteDeadline`: the call is recorded; it returns an
error on a closed connection, and otherwise when the failure pattern `wr` says so. -/
def Server.connWrite (s : Server) (wr : Conn → Option String) (conn : Conn) (data : String) :
    Server × Option String :=
  ({ s with writes := s.writes ++ [(conn, data)] },
   if conn ∈ s.closed then some "use of closed network connection" else wr conn)

/-- `conn.Close()`. -/
def Server.connClose (s : Server) (conn : Conn) : Server :=
  { s with closed := s.closed ++ [conn] }

/-- `s.logger.Error(...)` with the formatted text. -/
def Server.logError (s : Server) (text : String) : Server :=
  { s with log := s.log ++ ["ERROR: " ++ text] }

/-- `s.logger.Info(...)` with the formatted text. -/
def Server.logInfo (s : Server) (text : String) : Server :=
  { s with log := s.log ++ ["INFO: " ++ text] }

/-- The channel send `s.msgChan <- msg`. -/
def Server.send (s : Server) (msg : Message) : Server :=
  { s with msgChan := s.msgChan ++ [msg] }

/-- The loop `for _, msg := range lines { conn.Write([]byte(msg + "\n")) }` used to replay
the history; write errors are ignored. -/
def Server.writeLines (s : Server) (wr : Conn → Option String) (conn : Conn) :
    List String → Server
  | [] => s
  | msg :: rest => Server.writeLines (s.connWrite wr conn (msg ++ "\n")).1 wr conn rest

/-- Model of `Server.GetUsers`: the usernames of the registry, read under the mutex. -/
def Server.GetUsers (s : Server) : Except Fault (Server × List String) := do
  let s ← s.Lock
  let userList := s.users.map Prod.fst
  let s ← s.Unlock
  return (s, userList)

/-- The `range s.users` loop of the fan-out task in `broadcastMessages`, over the entries
still to visit. -/
def Server.deliver (s : Server) (wr : Conn → Option String) (msg : Message) :
    List (String × Conn) → Server
  | [] => s
  | (username, conn) :: rest =>
    if msg.Typ = MessageType.TypePrivate && msg.Target != username && msg.From != username then
      Server.deliver s wr msg rest
    else
      match s.connWrite wr conn (msg.String ++ "\n") with
      | (s1, some err) =>
        Server.deliver (s1.logError ("Failed to send to " ++ username ++ ": " ++ err)) wr msg rest
      | (s1, none) => Server.deliver s1 wr msg rest

/-- The task that `broadcastMessages` submits to the pool for one message. -/
def Server.fanOut (s : Server) (wr : Conn → Option String) (msg : Message) :
    Except Fault Server := do
  let s ← s.Lock
  let s := s.deliver wr msg s.users
  s.Unlock

/-- One iteration of `broadcastMessages`: receive the oldest queued message and run the
fan-out task submitted for it (the pool runs every task it is given until it is shut down;
its size only bounds how many run at once); with an empty queue the receive has nothing
to deliver. -/
def Server.broadcastMessages (s : Server) (wr : Conn → Option String) : Except Fault Server :=
  match s.msgChan with
  | [] => .ok s
  | msg :: rest => Server.fanOut { s with msgChan := rest } wr msg

/-- Model of `Server.handleCommand`; the result carries the returned error. -/
def Server.handleCommand (s : Server) (wr : Conn → Option String)
    (username input timestamp : String) : Except Fault (Server × Option String) :=
  let parts := Fields input
  match parts with
  | [] => .ok (s, some ErrInvalidCommand)
  | p0 :: _ =>
    if p0 = "/pm" then
      if parts.length < 3 then
        .ok (s, some "ERR004: /pm requires username and message")
      else do
        let target ← index parts 1
        let content := Join (parts.drop 2) " "
        let msg := NewPrivateMessage username target content
        let s := s.send msg
        let h ← s.history.Add msg.String username target timestamp
        return ({ s with history := h }, none)
    else if p0 = "/history" then do
      let s ← s.Lock
      let s := match mapLookup s.users username with
        | some conn => s.writeLines wr conn s.history.GetAll
        | none => s
      let s ← s.Unlock
      return (s, none)
    else if p0 = "/users" then do
      let s ← s.Lock
      let (s, users) ← s.GetUsers
      let userList := Join users ", "
      let s := match mapLookup s.users username with
        | some conn => (s.connWrite wr conn ("Online users: " ++ userList ++ "\n")).1
        | none => s
      let s ← s.Unlock
      return (s, none)
    else
      .ok (s, some ("ERR005: unknown command " ++ p0))

/-- Model of `Server.processInput`; `timestamp` is the clock reading it takes. -/
def Server.processInput (s : Server) (wr : Conn → Option String)
    (username input timestamp : String) : Except Fault (Server × Option String) :=
  if HasPrefix input "/" then
    s.handleCommand wr username input timestamp
  else do
    let msg := NewUserMessage username input
    let s := s.send msg
    let h ← s.history.Add msg.String username "" timestamp
    return ({ s with history := h }, none)

/-- The registration step of `handleConnection` (the block under `// Register user`):
`false` when the username is taken, in which case the caller returns. -/
def Server.register (s : Server) (wr : Conn → Option String) (conn : Conn)
    (username : String) : Except Fault (Server × Bool) := do
  let s ← s.Lock
  match mapLookup s.users username with
  | some _ =>
    let s := (s.connWrite wr conn (ErrUsernameTaken ++ "\n")).1
    let s ← s.Unlock
    return (s, false)
  | none =>
    let s := { s with users := mapSet s.users username conn }
    let s ← s.Unlock
    return (s, true)

/-- Model of `Server.handleConnection` from its start to the start of the heartbeat:
`rdUser` and `rdPass` are the results of the two `ReadString` calls, `auth` stands for
`s.auth.Authenticate`, `now` is the clock reading for the join record.  The result is
the username of the session when the loops are started, and `none` when the function has
returned, which closes the connection. -/
def Server.handleConnection (s : Server) (wr : Conn → Option String)
    (auth : String → String → Bool) (conn : Conn) (rdUser rdPass : Except String String)
    (now : String) : Except Fault (Server × Option String) :=
  match rdUser with
  | .error e => .ok ((s.logError ("Failed to read username: " ++ e)).connClose conn, none)
  | .ok rawUser =>
    let username := TrimSpace rawUser
    match rdPass with
    | .error e => .ok ((s.logError ("Failed to read password: " ++ e)).connClose conn, none)
    | .ok rawPass =>
      let password := TrimSpace rawPass
      if !auth username password then
        .ok (((s.connWrite wr conn (ErrAuthFailed ++ "\n")).1).connClose conn, none)
      else do
        let (s, registered) ← s.register wr conn username
        if !registered then
          return (s.connClose conn, none)
        else
          let s := s.writeLines wr conn s.history.GetAll
          let joinedMsg := NewSystemMessage (username ++ " joined the chat")
          let s := s.send joinedMsg
          let h ← s.history.Add joinedMsg.String "" "" now
          return ({ s with history := h }, some username)

/-- One iteration of the read loop of `handleConnection`: `rd` is the result of
`ReadString`, `now` the clock reading.  The flag tells whether the loop goes on; when it
does not, the function returns and the connection is closed. -/
def Server.handleConnectionLoop (s : Server) (wr : Conn → Option String) (conn : Conn)
    (username : String) (rd : Except String String) (now : String) :
    Except Fault (Server × Bool) :=
  match rd with
  | .error e => do
    let s ← s.Lock
    let s := { s with users := mapDelete s.users username }
    let s ← s.Unlock
    let leftMsg := NewSystemMessage (username ++ " left the chat")
    let s := s.send leftMsg
    let h ← s.history.Add leftMsg.String "" "" now
    let s := { s with history := h }
    let s := s.logInfo ("User " ++ username ++ " disconnected: " ++ e)
    return (s.connClose conn, false)
  | .ok raw =>
    let input := TrimSpace raw
    if input ≠ "" then do
      match ← s.processInput wr username input now with
      | (s, some err) => return ((s.connWrite wr conn (err ++ "\n")).1, true)
      | (s, none) => return (s, true)
    else
      .ok (s, true)

/-- One tick of `heartbeat`: the flag tells whether the loop goes on. -/
def Server.heartbeat (s : Server) (wr : Conn → Option String) (conn : Conn)
    (username : String) (now : String) : Except Fault (Server × Bool) :=
  match s.connWrite wr conn "PING\n" with
  | (s, some _) => do
    let s ← s.Lock
    let s := { s with users := mapDelete s.users username }
    let s ← s.Unlock
    let leftMsg := NewSystemMessage (username ++ " left the chat (timeout)")
    let s := s.send leftMsg
    let h ← s.history.Add leftMsg.String "" "" now
    let s := { s with history := h }
    let s := s.logInfo ("User " ++ username ++ " timed out")
    return (s, false)
  | (s, none) => .ok (s, true)

/-- The log line written when the fan-out write to the registry entry `e` fails. -/
def sendFailure (closed : List Conn) (wr : Conn → Option String) (e : String × Conn) :
    Option String :=
  (if e.2 ∈ closed then some "use of closed network connection" else wr e.2).map
    (fun err => "ERROR: " ++ ("Failed to send to " ++ e.1 ++ ": " ++ err))

/-- Whether the fan-out of `msg` writes to the registry entry `e`. -/
def addressed (msg : Message) (e : String × Conn) : Bool :=
  !(msg.Typ = MessageType.TypePrivate && msg.Target != e.1 && msg.From != e.1)

/-- One accepted connection: its identity, the results of the two handshake reads, the
verdict of the authenticator, the write failure pattern and the clock reading. -/
structure Handshake where
  conn : Conn
  rdUser : Except String String
  rdPass : Except String String
  auth : String → String → Bool
  wr : Conn → Option String
  now : String

/-- A sequence of accepted connections, each handled up to the start of its loops. -/
def Server.connects (s : Server) : List Handshake → Except Fault Server
  | [] => .ok s
  | k :: rest =>
    match s.handleConnection k.wr k.auth k.conn k.rdUser k.rdPass k.now with
    | .error f => .error f
    | .ok (s', _) => Server.connects s' rest

/-- An empty history of capacity 3 over an empty store. -/
def exampleHistory : History :=
  { messages := [], capacity := 3, db := { messages := [], faults := [] }, stdout := [] }

/-- A server with three registered sessions. -/
def exampleServer : Server :=
  { NewServer exampleHistory with users := [("alice", 1), ("bob", 2), ("carol", 3)] }

/-- The failure pattern under which every write succeeds. -/
def noFailure : Conn → Option String := fun _ => none

/-- The failure pattern under which writes to connection 1 fail. -/
def brokenPipe : Conn → Option String := fun c => if c = 1 then some "broken pipe" else none

/-! ## package udp -/

/-- The bytes of a Go string: its UTF-8 encoding. -/
def utf8 (s : String) : List UInt8 := s.data.flatMap String.utf8EncodeChar

/-- The built-in `copy(dst, src)`: the first `min(len(dst), len(src))` bytes are
overwritten. -/
def copyBytes (dst src : List UInt8) : List UInt8 :=
  src.take (min dst.length src.length) ++ dst.drop (min dst.length src.length)

/-- The slice expression `buf[:n]` on a slice whose capacity equals its length; it panics
when `n` exceeds the capacity. -/
def sliceTo (buf : List UInt8) (n : Nat) : Except Fault (List UInt8) :=
  if n > buf.length then .error .panic else .ok (buf.take n)

/-- The broadcaster: the datagrams handed to `conn.Write`, in order, and the lines handed
to the logger. -/
structure Broadcaster where
  sent : List (List UInt8)
  log : List String
deriving DecidableEq, Repr

/-- What `b.pool.Get()` returns: the pool is filled only by deferred `Put` calls, which
do not run while `Start` loops, so every `Get` calls `New`, a zeroed `make([]byte, 1024)`. -/
def poolGet : List UInt8 := List.replicate 1024 0

/-- One pass through the `default` branch of the loop in `Broadcaster.Start`: `getUsers` is
`none` for a nil accessor and otherwise the list the accessor returns, `writeErr` the error
of `conn.Write`, if any. -/
def Broadcaster.Start (b : Broadcaster) (getUsers : Option (List String))
    (writeErr : Option String) : Except Fault Broadcaster :=
  match getUsers with
  | none => .ok b
  | some users =>
    let userList := Join users ","
    let buf := poolGet
    let buf := copyBytes buf (utf8 userList)
    match sliceTo buf (utf8 userList).length with
    | .error f => .error f
    | .ok payload =>
      let b := { b with sent := b.sent ++ [payload] }
      match writeErr with
      | some err => .ok { b with log := b.log ++ ["ERROR: " ++ ("UDP broadcast failed: " ++ err)] }
      | none => .ok b

/-- A username of 1025 letters. -/
def longName : String := String.mk (List.replicate 1025 'a')

deriving instance DecidableEq for Except

/-! ## Auxiliary lemmas -/

theorem lastN_of_length_le {α : Type} (k : Nat) (l : List α) (h : l.length ≤ k) :
    lastN k l = l := by
  unfold lastN
  rw [Nat.sub_eq_zero_of_le h, List.drop_zero]

theorem length_lastN {α : Type} (k : Nat) (l : List α) :
    (lastN k l).length = min k l.length := by
  unfold lastN
  rw [List.length_drop]
  omega

theorem lastN_lastN_append {α : Type} (k : Nat) (a b : List α) :
    lastN k (lastN k a ++ b) = lastN k (a ++ b) := by
  by_cases h : a.length ≤ k
  · rw [lastN_of_length_le k a h]
  · have hk : k < a.length := Nat.lt_of_not_le h
    unfold lastN
    rw [List.length_append, List.length_append, List.length_drop]
    have e1 : a.length - (a.length - k) + b.length - k = b.length := by omega
    have e2 : a.length + b.length - k = (a.length - k) + b.length := by omega
    rw [e1, e2, ← List.drop_drop, List.drop_append_of_le_length (Nat.sub_le _ _)]

/-- One `Add` on a history within its positive capacity keeps the last `c` texts. -/
theorem History.Add_ok (h : History) (c : Nat) (hc : 1 ≤ c) (hcap : h.capacity = (c : Int))
    (hlen : h.messages.length ≤ c) (msg frm dst ts : String) :
    ∃ h', h.Add msg frm dst ts = .ok h' ∧ h'.messages = lastN c (h.messages ++ [msg]) ∧
      h'.capacity = h.capacity := by
  have key : ∃ kept, (if (h.messages.length : Int) ≥ h.capacity then sliceFrom1 h.messages
         else .ok h.messages) = .ok kept ∧ kept ++ [msg] = lastN c (h.messages ++ [msg]) := by
    by_cases hfull : (h.messages.length : Int) ≥ h.capacity
    · rw [if_pos hfull]
      have hl : h.messages.length = c := by rw [hcap] at hfull; omega
      cases hm : h.messages with
      | nil => rw [hm] at hl; simp at hl; omega
      | cons x rest =>
        refine ⟨rest, rfl, ?_⟩
        rw [hm] at hl
        simp only [List.length_cons] at hl
        unfold lastN
        simp only [List.length_append, List.length_cons, List.length_nil, List.cons_append]
        have : rest.length + 1 + (0 + 1) - c = 1 := by omega
        rw [this]; rfl
    · rw [if_neg hfull]
      refine ⟨h.messages, rfl, ?_⟩
      rw [lastN_of_length_le]
      rw [hcap] at hfull
      simp only [List.length_append, List.length_cons, List.length_nil]
      omega
  obtain ⟨kept, hk1, hk2⟩ := key
  unfold History.Add
  rw [hk1]
  simp only
  rcases hs : h.db.SaveMessage frm dst msg ts with ⟨db, _ | err⟩
  · exact ⟨_, rfl, hk2, rfl⟩
  · exact ⟨_, rfl, hk2, rfl⟩

theorem History.addAll_ok (c : Nat) (hc : 1 ≤ c) (adds : List AddCall) :
    ∀ h : History, h.capacity = (c : Int) → h.messages.length ≤ c →
    ∃ h', h.addAll adds = .ok h' ∧
      h'.messages = lastN c (h.messages ++ adds.map AddCall.msg) ∧ h'.capacity = h.capacity := by
  induction adds with
  | nil =>
    intro h _ hlen
    exact ⟨h, rfl, by simp [lastN_of_length_le c h.messages hlen], rfl⟩
  | cons a rest ih =>
    intro h hcap hlen
    obtain ⟨h1, e1, m1, c1⟩ := History.Add_ok h c hc hcap hlen a.msg a.frm a.dst a.timestamp
    have hlen1 : h1.messages.length ≤ c := by rw [m1, length_lastN]; exact Nat.min_le_left _ _
    obtain ⟨h2, e2, m2, c2⟩ := ih h1 (c1.trans hcap) hlen1
    refine ⟨h2, ?_, ?_, c2.trans c1⟩
    · simp only [History.addAll, e1]; exact e2
    · rw [m2, m1, lastN_lastN_append]; simp

theorem fieldsGo_ne_nil (cs : List Char) : ∀ cur : List Char, cur ≠ [] → fieldsGo cs cur ≠ [] := by
  induction cs with
  | nil => intro cur h; cases cur with
    | nil => exact absurd rfl h
    | cons a t => simp [fieldsGo]
  | cons c cs ih =>
    intro cur h
    cases cur with
    | nil => exact absurd rfl h
    | cons a t =>
      unfold fieldsGo
      by_cases hc : isSpace c = true
      · simp [hc]
      · simp only [hc]; exact ih _ (by simp)

theorem String.mk_ne_empty (l : List Char) (h : l ≠ []) : String.mk l ≠ "" := by
  intro e
  have : (String.mk l).data = ("" : String).data := by rw [e]
  exact h this

theorem fieldsGo_mem_ne_empty (cs : List Char) :
    ∀ cur : List Char, ∀ f ∈ fieldsGo cs cur, f ≠ "" := by
  induction cs with
  | nil =>
    intro cur f hf
    cases cur with
    | nil => simp [fieldsGo] at hf
    | cons a t =>
      simp [fieldsGo] at hf
      rw [hf]; exact String.mk_ne_empty _ (by simp)
  | cons c cs ih =>
    intro cur f hf
    unfold fieldsGo at hf
    by_cases hc : isSpace c = true
    · cases cur with
      | nil => simp [hc] at hf; exact ih [] f hf
      | cons a t =>
        simp [hc] at hf
        rcases hf with hf | hf
        · rw [hf]; exact String.mk_ne_empty _ (by simp)
        · exact ih [] f hf
    · simp only [hc] at hf
      exact ih _ f hf

theorem Fields_mem_ne_empty (s f : String) (h : f ∈ Fields s) : f ≠ "" :=
  fieldsGo_mem_ne_empty s.data [] f h

theorem Fields_ne_nil_of_slash (input : String) (h : HasPrefix input "/" = true) :
    Fields input ≠ [] := by
  unfold HasPrefix at h
  unfold Fields
  cases hd : input.data with
  | nil => rw [hd] at h; simp [List.isPrefixOf] at h
  | cons c cs =>
    rw [hd] at h
    have hc : c = '/' := by
      simp [List.isPrefixOf] at h
      exact h.symm
    subst hc
    have : isSpace '/' = false := by decide
    unfold fieldsGo
    simp only [this]
    exact fieldsGo_ne_nil cs _ (by simp)

/-- `History.Add` on a history of positive capacity returns. -/
theorem History.Add_of_pos (h : History) (hpos : 0 < h.capacity) (msg frm dst ts : String) :
    ∃ h', h.Add msg frm dst ts = .ok h' ∧ h'.capacity = h.capacity ∧
      h'.GetAll.getLast? = some msg ∧
      h'.db = (h.db.SaveMessage frm dst msg ts).1 := by
  have key : ∃ kept, (if (h.messages.length : Int) ≥ h.capacity then sliceFrom1 h.messages
         else .ok h.messages) = .ok kept := by
    by_cases hfull : (h.messages.length : Int) ≥ h.capacity
    · rw [if_pos hfull]
      cases hm : h.messages with
      | nil => rw [hm] at hfull; simp at hfull; omega
      | cons x rest => exact ⟨rest, rfl⟩
    · rw [if_neg hfull]; exact ⟨_, rfl⟩
  obtain ⟨kept, hk⟩ := key
  unfold History.Add
  rw [hk]
  simp only
  rcases hs : h.db.SaveMessage frm dst msg ts with ⟨db, _ | err⟩
  · exact ⟨_, rfl, rfl, by simp [History.GetAll], rfl⟩
  · exact ⟨_, rfl, rfl, by simp [History.GetAll], rfl⟩


theorem Server.readFail_eq (s : Server) (wr : Conn → Option String) (conn : Conn)
    (username e now : String) (h' : History) (hfree : s.usersMu = false)
    (hadd : s.history.Add (NewSystemMessage (username ++ " left the chat")).String "" "" now
      = .ok h') :
    s.handleConnectionLoop wr conn username (.error e) now = .ok
      ({ s with users := mapDelete s.users username,
                msgChan := s.msgChan ++ [NewSystemMessage (username ++ " left the chat")],
                history := h',
                log := s.log ++ ["INFO: " ++ ("User " ++ username ++ " disconnected: " ++ e)],
                closed := s.closed ++ [conn] }, false) := by
  unfold Server.handleConnectionLoop
  simp [Server.Lock, Server.Unlock, hfree, bind, Except.bind, Server.send, hadd, pure,
    Except.pure, Server.logInfo, Server.connClose]

theorem Server.heartbeatFail_eq (s : Server) (wr : Conn → Option String) (conn : Conn)
    (username now : String) (h' : History) (hfree : s.usersMu = false)
    (hfail : conn ∈ s.closed ∨ (wr conn).isSome = true)
    (hadd : s.history.Add (NewSystemMessage (username ++ " left the chat (timeout)")).String
      "" "" now = .ok h') :
    s.heartbeat wr conn username now = .ok
      ({ s with writes := s.writes ++ [(conn, "PING\n")],
                users := mapDelete s.users username,
                msgChan := s.msgChan ++
                  [NewSystemMessage (username ++ " left the chat (timeout)")],
                history := h',
                log := s.log ++ ["INFO: " ++ ("User " ++ username ++ " timed out")] }, false) := by
  have hw : ∃ err, (if conn ∈ s.closed then some "use of closed network connection"
      else wr conn) = some err := by
    by_cases hc : conn ∈ s.closed
    · exact ⟨_, if_pos hc⟩
    · rw [if_neg hc]
      rcases hfail with h | h
      · exact absurd h hc
      · cases hwr : wr conn with
        | none => rw [hwr] at h; simp at h
        | some err => exact ⟨err, rfl⟩
  obtain ⟨err, herr⟩ := hw
  unfold Server.heartbeat
  simp [Server.connWrite, herr, Server.Lock, Server.Unlock, hfree, bind, Except.bind,
    Server.send, hadd, pure, Except.pure, Server.logInfo]

theorem Server.heartbeatOk_eq (s : Server) (wr : Conn → Option String) (conn : Conn)
    (username now : String) (hopen : conn ∉ s.closed) (hok : wr conn = none) :
    s.heartbeat wr conn username now = .ok
      ({ s with writes := s.writes ++ [(conn, "PING\n")] }, true) := by
  unfold Server.heartbeat
  simp [Server.connWrite, hopen, hok]

theorem mapDelete_idem (m : List (String × Conn)) (k : String) :
    mapDelete (mapDelete m k) k = mapDelete m k := by
  simp [mapDelete, List.filter_filter]

theorem mapLookup_mapDelete (m : List (String × Conn)) (k : String) :
    mapLookup (mapDelete m k) k = none := by
  induction m with
  | nil => rfl
  | cons e rest ih =>
    obtain ⟨k', v⟩ := e
    by_cases hk : k' = k
    · simp [mapDelete, List.filter_cons, hk] at ih ⊢; exact ih
    · simp [mapDelete, List.filter_cons, hk, mapLookup] at ih ⊢; exact ih

theorem Server.deliver_eq (wr : Conn → Option String) (msg : Message)
    (l : List (String × Conn)) : ∀ s : Server,
    s.deliver wr msg l =
      { s with
        writes := s.writes ++ (l.filter (addressed msg)).map (fun e => (e.2, msg.String ++ "\n")),
        log := s.log ++ (l.filter (addressed msg)).filterMap (sendFailure s.closed wr) } := by
  induction l with
  | nil => intro s; simp [Server.deliver]
  | cons e rest ih =>
    intro s
    obtain ⟨username, conn⟩ := e
    unfold Server.deliver
    by_cases hskip : (msg.Typ = MessageType.TypePrivate && msg.Target != username &&
        msg.From != username) = true
    · rw [if_pos hskip, ih]
      have : addressed msg (username, conn) = false := by simp [addressed, hskip]
      simp [List.filter_cons, this]
    · rw [if_neg hskip]
      have hadd : addressed msg (username, conn) = true := by
        unfold addressed; rw [Bool.not_eq_true] at hskip; rw [hskip]; rfl
      cases herr : (if conn ∈ s.closed then some "use of closed network connection"
          else wr conn) with
      | none =>
        simp only [Server.connWrite, herr]
        rw [ih]
        simp [List.filter_cons, hadd, sendFailure, herr]
      | some err =>
        simp only [Server.connWrite, herr]
        rw [ih]
        simp [List.filter_cons, hadd, sendFailure, herr, Server.logError]

theorem Server.fanOut_eq (s : Server) (wr : Conn → Option String) (msg : Message)
    (hfree : s.usersMu = false) :
    s.fanOut wr msg = .ok
      { s with
        writes := s.writes ++
          (s.users.filter (addressed msg)).map (fun e => (e.2, msg.String ++ "\n")),
        log := s.log ++ (s.users.filter (addressed msg)).filterMap (sendFailure s.closed wr) } := by
  unfold Server.fanOut Server.Lock
  simp [hfree, bind, Except.bind, Server.deliver_eq, Server.Unlock]

theorem mapSet_of_lookup_none (m : List (String × Conn)) (k : String) (v : Conn)
    (h : mapLookup m k = none) : mapSet m k v = m ++ [(k, v)] := by
  induction m with
  | nil => rfl
  | cons e rest ih =>
    obtain ⟨k', v'⟩ := e
    by_cases hk : k' = k
    · simp [mapLookup, hk] at h
    · simp only [mapLookup, hk, if_false] at h
      simp [mapSet, hk, ih h]

theorem not_mem_keys_of_lookup_none (m : List (String × Conn)) (k : String)
    (h : mapLookup m k = none) : k ∉ m.map Prod.fst := by
  induction m with
  | nil => simp
  | cons e rest ih =>
    obtain ⟨k', v'⟩ := e
    by_cases hk : k' = k
    · simp [mapLookup, hk] at h
    · simp only [mapLookup, hk, if_false] at h
      simp only [List.map_cons, List.mem_cons, not_or]
      exact ⟨fun e => hk e.symm, ih h⟩

theorem mapLookup_append_of_some (m m' : List (String × Conn)) (k : String) (c : Conn)
    (h : mapLookup m k = some c) : mapLookup (m ++ m') k = some c := by
  induction m with
  | nil => simp [mapLookup] at h
  | cons e rest ih =>
    obtain ⟨k', v'⟩ := e
    by_cases hk : k' = k
    · simp only [mapLookup, hk, if_true] at h
      simp [mapLookup, hk, h]
    · simp only [mapLookup, hk, if_false] at h
      simp [mapLookup, hk, ih h]

theorem Server.writeLines_eq (wr : Conn → Option String) (conn : Conn) (lines : List String) :
    ∀ s : Server, s.writeLines wr conn lines =
      { s with writes := s.writes ++ lines.map (fun m => (conn, m ++ "\n")) } := by
  induction lines with
  | nil => intro s; simp [Server.writeLines]
  | cons m rest ih => intro s; simp [Server.writeLines, ih, Server.connWrite]

theorem Server.register_taken (s : Server) (wr : Conn → Option String) (conn c0 : Conn)
    (username : String) (hfree : s.usersMu = false)
    (htaken : mapLookup s.users username = some c0) :
    s.register wr conn username =
      .ok ({ s with writes := s.writes ++ [(conn, ErrUsernameTaken ++ "\n")] }, false) := by
  unfold Server.register
  simp [Server.Lock, Server.Unlock, hfree, bind, Except.bind, htaken, Server.connWrite, pure,
    Except.pure]

theorem Server.register_fresh (s : Server) (wr : Conn → Option String) (conn : Conn)
    (username : String) (hfree : s.usersMu = false)
    (hnew : mapLookup s.users username = none) :
    s.register wr conn username =
      .ok ({ s with users := s.users ++ [(username, conn)] }, true) := by
  unfold Server.register
  simp [Server.Lock, Server.Unlock, hfree, bind, Except.bind, hnew, pure, Except.pure,
    mapSet_of_lookup_none]

theorem Server.handleConnection_taken (s : Server) (wr : Conn → Option String)
    (auth : String → String → Bool) (conn c0 : Conn) (rawUser rawPass now : String)
    (hfree : s.usersMu = false)
    (hauth : auth (TrimSpace rawUser) (TrimSpace rawPass) = true)
    (htaken : mapLookup s.users (TrimSpace rawUser) = some c0) :
    s.handleConnection wr auth conn (.ok rawUser) (.ok rawPass) now =
      .ok ({ s with writes := s.writes ++ [(conn, ErrUsernameTaken ++ "\n")],
                    closed := s.closed ++ [conn] }, none) := by
  unfold Server.handleConnection
  simp [hauth, Server.register_taken s wr conn c0 _ hfree htaken, bind, Except.bind,
    pure, Except.pure, Server.connClose]

theorem Server.handleConnection_fresh (s : Server) (wr : Conn → Option String)
    (auth : String → String → Bool) (conn : Conn) (rawUser rawPass now : String)
    (h' : History) (hfree : s.usersMu = false)
    (hauth : auth (TrimSpace rawUser) (TrimSpace rawPass) = true)
    (hnew : mapLookup s.users (TrimSpace rawUser) = none)
    (hadd : s.history.Add (NewSystemMessage (TrimSpace rawUser ++ " joined the chat")).String
      "" "" now = .ok h') :
    s.handleConnection wr auth conn (.ok rawUser) (.ok rawPass) now =
      .ok ({ s with users := s.users ++ [(TrimSpace rawUser, conn)],
                    writes := s.writes ++ s.history.GetAll.map (fun m => (conn, m ++ "\n")),
                    msgChan := s.msgChan ++
                      [NewSystemMessage (TrimSpace rawUser ++ " joined the chat")],
                    history := h' }, some (TrimSpace rawUser)) := by
  unfold Server.handleConnection
  simp [hauth, Server.register_fresh s wr conn _ hfree hnew, bind, Except.bind,
    pure, Except.pure, Server.writeLines_eq, Server.send, hadd]

theorem Server.handleConnection_rejected (s : Server) (wr : Conn → Option String)
    (auth : String → String → Bool) (conn : Conn) (rawUser rawPass now : String)
    (hauth : auth (TrimSpace rawUser) (TrimSpace rawPass) = false) :
    s.handleConnection wr auth conn (.ok rawUser) (.ok rawPass) now =
      .ok ({ s with writes := s.writes ++ [(conn, ErrAuthFailed ++ "\n")],
                    closed := s.closed ++ [conn] }, none) := by
  unfold Server.handleConnection
  simp [hauth, Server.connWrite, Server.connClose]

/-- The handshake returns from every state with a free mutex and a history of positive
capacity, and either leaves the registry alone or adds one entry under a fresh name. -/
theorem Server.handleConnection_step (s : Server) (wr : Conn → Option String)
    (auth : String → String → Bool) (conn : Conn) (rdUser rdPass : Except String String)
    (now : String) (hfree : s.usersMu = false) (hcap : 0 < s.history.capacity) :
    ∃ s' r, s.handleConnection wr auth conn rdUser rdPass now = .ok (s', r) ∧
      s'.usersMu = false ∧ s'.history.capacity = s.history.capacity ∧
      (s'.users = s.users ∨
        ∃ u, mapLookup s.users u = none ∧ s'.users = s.users ++ [(u, conn)]) := by
  cases rdUser with
  | error e => exact ⟨_, _, rfl, hfree, rfl, Or.inl rfl⟩
  | ok rawUser =>
    cases rdPass with
    | error e => exact ⟨_, _, rfl, hfree, rfl, Or.inl rfl⟩
    | ok rawPass =>
      cases hauth : auth (TrimSpace rawUser) (TrimSpace rawPass) with
      | false =>
        rw [Server.handleConnection_rejected s wr auth conn rawUser rawPass now hauth]
        exact ⟨_, _, rfl, hfree, rfl, Or.inl rfl⟩
      | true =>
        cases hl : mapLookup s.users (TrimSpace rawUser) with
        | some c0 =>
          rw [Server.handleConnection_taken s wr auth conn c0 rawUser rawPass now hfree hauth hl]
          exact ⟨_, _, rfl, hfree, rfl, Or.inl rfl⟩
        | none =>
          obtain ⟨h1, a1, c1, _⟩ := History.Add_of_pos s.history hcap
            (NewSystemMessage (TrimSpace rawUser ++ " joined the chat")).String "" "" now
          rw [Server.handleConnection_fresh s wr auth conn rawUser rawPass now h1 hfree hauth
            hl a1]
          exact ⟨_, _, rfl, hfree, c1, Or.inr ⟨_, hl, rfl⟩⟩

/-- Any sequence of handshakes returns, keeps the usernames of the registry distinct and
keeps every entry that was registered before it. -/
theorem Server.connects_inv (ks : List Handshake) : ∀ s : Server,
    s.usersMu = false → 0 < s.history.capacity → (s.users.map Prod.fst).Nodup →
    ∃ s', s.connects ks = .ok s' ∧ s'.usersMu = false ∧ 0 < s'.history.capacity ∧
      (s'.users.map Prod.fst).Nodup ∧
      ∀ u c, mapLookup s.users u = some c → mapLookup s'.users u = some c := by
  induction ks with
  | nil => intro s hfree hcap hnd; exact ⟨s, rfl, hfree, hcap, hnd, fun _ _ h => h⟩
  | cons k rest ih =>
    intro s hfree hcap hnd
    obtain ⟨s1, r, e1, f1, c1, hu⟩ :=
      Server.handleConnection_step s k.wr k.auth k.conn k.rdUser k.rdPass k.now hfree hcap
    have hnd1 : (s1.users.map Prod.fst).Nodup := by
      rcases hu with hu | ⟨u, hnone, hu⟩
      · rw [hu]; exact hnd
      · rw [hu, List.map_append, List.nodup_append]
        refine ⟨hnd, by simp, ?_⟩
        intro a ha hb
        simp only [List.map_cons, List.map_nil, List.mem_singleton] at hb
        subst hb
        exact not_mem_keys_of_lookup_none _ _ hnone ha
    have hkeep : ∀ u c, mapLookup s.users u = some c → mapLookup s1.users u = some c := by
      intro u c h
      rcases hu with hu | ⟨u', _, hu⟩
      · rw [hu]; exact h
      · rw [hu]; exact mapLookup_append_of_some _ _ _ _ h
    obtain ⟨s2, e2, f2, c2, n2, k2⟩ := ih s1 f1 (by rw [c1]; exact hcap) hnd1
    refine ⟨s2, ?_, f2, c2, n2, fun u c h => k2 u c (hkeep u c h)⟩
    simp only [Server.connects, e1]
    exact e2

/-! ## Claims -/

/-- C1: the fan-out task of a Private message with from F and target T returns and writes
the rendered text followed by a newline to exactly the registry entries whose username is
T or F, one write per such entry and no other write; registry, queue and history are
unchanged. -/
theorem fanOut_private_recipients (s : Server) (wr : Conn → Option String) (msg : Message)
    (hfree : s.usersMu = false) (hp : msg.Typ = MessageType.TypePrivate) :
    ∃ s', s.fanOut wr msg = .ok s' ∧
      s'.writes = s.writes ++
        (s.users.filter (fun e => decide (e.1 = msg.Target ∨ e.1 = msg.From))).map
          (fun e => (e.2, msg.String ++ "\n")) ∧
      s'.users = s.users ∧ s'.msgChan = s.msgChan ∧ s'.history = s.history ∧
      s'.usersMu = false := by
  have hflt : s.users.filter (addressed msg) =
      s.users.filter (fun e => decide (e.1 = msg.Target ∨ e.1 = msg.From)) := by
    apply List.filter_congr
    intro e _
    have e1 : (e.1 = msg.Target) = (msg.Target = e.1) := propext eq_comm
    have e2 : (e.1 = msg.From) = (msg.From = e.1) := propext eq_comm
    simp only [e1, e2]
    by_cases h1 : msg.Target = e.1 <;> by_cases h2 : msg.From = e.1 <;>
      simp [addressed, hp, h1, h2]
  refine ⟨_, Server.fanOut_eq s wr msg hfree, ?_, rfl, rfl, rfl, hfree⟩
  simp only [hflt]

/-- Witness for C1: alice sends a private message to bob while carol is connected. -/
theorem fanOut_private_recipients_witness :
    exampleServer.usersMu = false ∧
    (NewPrivateMessage "alice" "bob" "secret").Typ = MessageType.TypePrivate ∧
    ∃ s', exampleServer.fanOut noFailure (NewPrivateMessage "alice" "bob" "secret") = .ok s' ∧
      s'.writes = exampleServer.writes ++
        (exampleServer.users.filter (fun e =>
          decide (e.1 = (NewPrivateMessage "alice" "bob" "secret").Target ∨
            e.1 = (NewPrivateMessage "alice" "bob" "secret").From))).map
          (fun e => (e.2, (NewPrivateMessage "alice" "bob" "secret").String ++ "\n")) ∧
      s'.users = exampleServer.users ∧ s'.msgChan = exampleServer.msgChan ∧
      s'.history = exampleServer.history ∧ s'.usersMu = false :=
  ⟨rfl, rfl,
    fanOut_private_recipients exampleServer noFailure (NewPrivateMessage "alice" "bob" "secret")
      rfl rfl⟩

/-- C2: for a capacity c of at least 1 and a history holding at most c entries, any
sequence of Add calls returns, and GetAll then yields the last min(c, old length + n)
elements of the old entries followed by the added texts, oldest first; its length never
exceeds c, and once at least c texts have been added it is the last c of them. -/
theorem History.GetAll_after_adds (h : History) (c : Nat) (hc : 1 ≤ c)
    (hcap : h.capacity = (c : Int)) (hlen : h.messages.length ≤ c) (adds : List AddCall) :
    ∃ h', h.addAll adds = .ok h' ∧
      h'.GetAll = lastN (min c (h.messages.length + adds.length))
        (h.messages ++ adds.map AddCall.msg) ∧
      h'.GetAll.length = min c (h.messages.length + adds.length) ∧
      h'.GetAll.length ≤ c ∧
      (c ≤ adds.length → h'.GetAll = lastN c (adds.map AddCall.msg)) := by
  obtain ⟨h', e, m, _⟩ := History.addAll_ok c hc adds h hcap hlen
  have hm : h'.GetAll = lastN (min c (h.messages.length + adds.length))
        (h.messages ++ adds.map AddCall.msg) := by
    unfold History.GetAll
    rw [m]
    by_cases hle : c ≤ h.messages.length + adds.length
    · rw [Nat.min_eq_left hle]
    · rw [Nat.min_eq_right (Nat.le_of_not_le hle)]
      rw [lastN_of_length_le, lastN_of_length_le] <;> simp
      omega
  refine ⟨h', e, hm, ?_, ?_, ?_⟩
  · rw [hm, length_lastN]; simp
  · rw [hm, length_lastN]; simp
  · intro hn
    unfold History.GetAll
    rw [m]
    unfold lastN
    simp only [List.length_append, List.length_map]
    have e2 : h.messages.length + adds.length - c = h.messages.length + (adds.length - c) := by
      omega
    rw [e2, List.drop_append]

/-- Witness for C2: two loaded entries, capacity 3, four further additions; the result
is the last three additions. -/
theorem History.GetAll_after_adds_witness :
    (1 ≤ 3) ∧
    ({ exampleHistory with messages := ["m1", "m2"] } : History).capacity = ((3 : Nat) : Int) ∧
    ({ exampleHistory with messages := ["m1", "m2"] } : History).messages.length ≤ 3 ∧
    3 ≤ [(⟨"m3", "alice", "", "t3"⟩ : AddCall), ⟨"m4", "bob", "", "t4"⟩,
      ⟨"m5", "alice", "bob", "t5"⟩, ⟨"m6", "", "", "t6"⟩].length ∧
    ∃ h', ({ exampleHistory with messages := ["m1", "m2"] } : History).addAll
        [⟨"m3", "alice", "", "t3"⟩, ⟨"m4", "bob", "", "t4"⟩, ⟨"m5", "alice", "bob", "t5"⟩,
         ⟨"m6", "", "", "t6"⟩] = .ok h' ∧
      h'.GetAll = ["m4", "m5", "m6"] ∧ h'.GetAll.length ≤ 3 :=
  ⟨by decide, rfl, by decide, by decide,
    (History.GetAll_after_adds { exampleHistory with messages := ["m1", "m2"] } 3 (by decide)
      rfl (by decide)
      [⟨"m3", "alice", "", "t3"⟩, ⟨"m4", "bob", "", "t4"⟩, ⟨"m5", "alice", "bob", "t5"⟩,
       ⟨"m6", "", "", "t6"⟩]).elim
      (fun h' hh => ⟨h', hh.1, (hh.2.2.2.2 (by decide)).trans (by decide), hh.2.2.2.1⟩)⟩

/-- C3, evaluated: alice's client disconnects, so her read fails with EOF and the read
loop tears the session down and closes the connection; the heartbeat of the same session
then fails to write its PING and tears down again.  Two departure messages are queued and
two are added to the history, the second announcing a timeout, so the second loop is not
a no-op. -/
theorem disconnect_tears_down_twice :
    ((exampleServer.handleConnectionLoop noFailure 1 "alice" (.error "EOF") "t1").bind
      (fun r1 => (r1.1.heartbeat noFailure 1 "alice" "t2").map
        (fun r2 => (r2.1.msgChan, r2.1.history.GetAll, r2.1.log)))) =
      .ok ([NewSystemMessage "alice left the chat",
            NewSystemMessage "alice left the chat (timeout)"],
           ["[SYSTEM] alice left the chat", "[SYSTEM] alice left the chat (timeout)"],
           ["INFO: User alice disconnected: EOF", "INFO: User alice timed out"]) := by
  decide

/-- The run evaluated for C3, for every state and in both orders: when the read fails and
the PING write fails, each loop deletes the username from the registry, enqueues its own
System departure message and adds it to the history, whatever the other loop has done;
after the read loop has returned the connection is closed, so the next PING write
fails. -/
theorem teardown_by_each_loop (s : Server) (wr wr' : Conn → Option String) (conn : Conn)
    (username e now now' : String) (hfree : s.usersMu = false)
    (hcap : 0 < s.history.capacity)
    (hfail : conn ∈ s.closed ∨ (wr conn).isSome = true) :
    (∃ s1 s2, s.handleConnectionLoop wr conn username (.error e) now = .ok (s1, false) ∧
      s1.heartbeat wr' conn username now' = .ok (s2, false) ∧
      s1.users = mapDelete s.users username ∧ s2.users = s1.users ∧
      s2.msgChan = s.msgChan ++ [NewSystemMessage (username ++ " left the chat"),
        NewSystemMessage (username ++ " left the chat (timeout)")] ∧
      s.history.addAll
        [⟨(NewSystemMessage (username ++ " left the chat")).String, "", "", now⟩,
         ⟨(NewSystemMessage (username ++ " left the chat (timeout)")).String, "", "", now'⟩]
        = .ok s2.history) ∧
    (∃ s1 s2, s.heartbeat wr conn username now = .ok (s1, false) ∧
      s1.handleConnectionLoop wr' conn username (.error e) now' = .ok (s2, false) ∧
      s1.users = mapDelete s.users username ∧ s2.users = s1.users ∧
      s2.msgChan = s.msgChan ++ [NewSystemMessage (username ++ " left the chat (timeout)"),
        NewSystemMessage (username ++ " left the chat")] ∧
      s.history.addAll
        [⟨(NewSystemMessage (username ++ " left the chat (timeout)")).String, "", "", now⟩,
         ⟨(NewSystemMessage (username ++ " left the chat")).String, "", "", now'⟩]
        = .ok s2.history) := by
  constructor
  · obtain ⟨h1, a1, c1, _⟩ := History.Add_of_pos s.history hcap
      (NewSystemMessage (username ++ " left the chat")).String "" "" now
    obtain ⟨h2, a2, _, _⟩ := History.Add_of_pos h1 (by rw [c1]; exact hcap)
      (NewSystemMessage (username ++ " left the chat (timeout)")).String "" "" now'
    have r1 := Server.readFail_eq s wr conn username e now h1 hfree a1
    refine ⟨_, _, r1, Server.heartbeatFail_eq _ wr' conn username now' h2 ?_ ?_ a2,
      rfl, ?_, ?_, ?_⟩
    · exact hfree
    · exact Or.inl (by simp)
    · simp [mapDelete_idem]
    · simp
    · simp [History.addAll, a1, a2]
  · obtain ⟨h1, a1, c1, _⟩ := History.Add_of_pos s.history hcap
      (NewSystemMessage (username ++ " left the chat (timeout)")).String "" "" now
    obtain ⟨h2, a2, _, _⟩ := History.Add_of_pos h1 (by rw [c1]; exact hcap)
      (NewSystemMessage (username ++ " left the chat")).String "" "" now'
    have r1 := Server.heartbeatFail_eq s wr conn username now h1 hfree hfail a1
    refine ⟨_, _, r1, Server.readFail_eq _ wr' conn username e now' h2 ?_ a2,
      rfl, ?_, ?_, ?_⟩
    · exact hfree
    · simp [mapDelete_idem]
    · simp
    · simp [History.addAll, a1, a2]

/-- The two orders of teardown on alice's session, with writes to her connection failing. -/
theorem teardown_by_each_loop_witness :
    exampleServer.usersMu = false ∧ 0 < exampleServer.history.capacity ∧
    (1 ∈ exampleServer.closed ∨ (brokenPipe 1).isSome = true) ∧
    (∃ s1 s2, exampleServer.handleConnectionLoop brokenPipe 1 "alice" (.error "EOF") "t1"
        = .ok (s1, false) ∧
      s1.heartbeat noFailure 1 "alice" "t2" = .ok (s2, false) ∧
      s1.users = mapDelete exampleServer.users "alice" ∧ s2.users = s1.users ∧
      s2.msgChan = exampleServer.msgChan ++ [NewSystemMessage ("alice" ++ " left the chat"),
        NewSystemMessage ("alice" ++ " left the chat (timeout)")] ∧
      exampleServer.history.addAll
        [⟨(NewSystemMessage ("alice" ++ " left the chat")).String, "", "", "t1"⟩,
         ⟨(NewSystemMessage ("alice" ++ " left the chat (timeout)")).String, "", "", "t2"⟩]
        = .ok s2.history) ∧
    (∃ s1 s2, exampleServer.heartbeat brokenPipe 1 "alice" "t1" = .ok (s1, false) ∧
      s1.handleConnectionLoop noFailure 1 "alice" (.error "EOF") "t2" = .ok (s2, false) ∧
      s1.users = mapDelete exampleServer.users "alice" ∧ s2.users = s1.users ∧
      s2.msgChan = exampleServer.msgChan ++
        [NewSystemMessage ("alice" ++ " left the chat (timeout)"),
         NewSystemMessage ("alice" ++ " left the chat")] ∧
      exampleServer.history.addAll
        [⟨(NewSystemMessage ("alice" ++ " left the chat (timeout)")).String, "", "", "t1"⟩,
         ⟨(NewSystemMessage ("alice" ++ " left the chat")).String, "", "", "t2"⟩]
        = .ok s2.history) :=
  ⟨rfl, by decide, Or.inr rfl,
    teardown_by_each_loop exampleServer brokenPipe noFailure 1 "alice" "EOF" "t1" "t2" rfl
      (by decide) (Or.inr rfl)⟩

/-- C4, counterexample: alice's heartbeat write succeeds and her read then fails with a
deadline error; the System message the read loop generates reads "[SYSTEM] alice left the
chat", which is not the "(timeout)" text, and the next heartbeat tick, on the connection
the read loop has closed, adds a second System message. -/
theorem idle_timeout_text_counterexample :
    exampleServer.heartbeat noFailure 1 "alice" "t0" =
      .ok ({ exampleServer with writes := [(1, "PING\n")] }, true) ∧
    (({ exampleServer with writes := [(1, "PING\n")] } : Server).handleConnectionLoop
        noFailure 1 "alice" (.error "i/o timeout") "t1").map
      (fun r => (r.1.users, r.1.msgChan.map Message.String)) =
      .ok ([("bob", 2), ("carol", 3)], ["[SYSTEM] alice left the chat"]) ∧
    "[SYSTEM] alice left the chat" ≠ "[SYSTEM] alice left the chat (timeout)" ∧
    ((({ exampleServer with writes := [(1, "PING\n")] } : Server).handleConnectionLoop
        noFailure 1 "alice" (.error "i/o timeout") "t1").bind
      (fun r => (r.1.heartbeat noFailure 1 "alice" "t2").map
        (fun r2 => r2.1.msgChan.map Message.String))) =
      .ok ["[SYSTEM] alice left the chat", "[SYSTEM] alice left the chat (timeout)"] := by
  decide

/-- C4 (amended): while writes to the session's connection succeed a heartbeat tick only
writes PING and tears nothing down; when the read of the read loop fails (a deadline error
included) the username is removed from the registry and the read loop generates exactly
one System message, whose rendered text is "[SYSTEM] <username> left the chat", queued and
added to the history. -/
theorem idle_timeout_read_teardown (s : Server) (wr : Conn → Option String) (conn : Conn)
    (username e now now' : String) (hfree : s.usersMu = false)
    (hcap : 0 < s.history.capacity) (hopen : conn ∉ s.closed) (hok : wr conn = none) :
    s.heartbeat wr conn username now' =
      .ok ({ s with writes := s.writes ++ [(conn, "PING\n")] }, true) ∧
    ∃ s', s.handleConnectionLoop wr conn username (.error e) now = .ok (s', false) ∧
      s'.users = mapDelete s.users username ∧ mapLookup s'.users username = none ∧
      s'.msgChan = s.msgChan ++
        [{ Typ := MessageType.TypeSystem, From := "", Target := "",
           Content := "[SYSTEM] " ++ username ++ " left the chat" }] ∧
      s.history.Add ("[SYSTEM] " ++ username ++ " left the chat") "" "" now = .ok s'.history ∧
      s'.history.GetAll.getLast? = some ("[SYSTEM] " ++ username ++ " left the chat") := by
  refine ⟨Server.heartbeatOk_eq s wr conn username now' hopen hok, ?_⟩
  obtain ⟨h1, a1, _, l1, _⟩ := History.Add_of_pos s.history hcap
    (NewSystemMessage (username ++ " left the chat")).String "" "" now
  have htxt : (NewSystemMessage (username ++ " left the chat")).String =
      "[SYSTEM] " ++ username ++ " left the chat" := by
    simp [NewSystemMessage, Message.String, String.append_assoc]
  refine ⟨_, Server.readFail_eq s wr conn username e now h1 hfree a1, rfl, ?_, ?_, ?_, ?_⟩
  · exact mapLookup_mapDelete _ _
  · simp [NewSystemMessage, String.append_assoc]
  · rw [← htxt]; exact a1
  · rw [← htxt]; exact l1

/-- Witness for C4 (amended): alice's session on the example server. -/
theorem idle_timeout_read_teardown_witness :
    exampleServer.usersMu = false ∧ 0 < exampleServer.history.capacity ∧
    1 ∉ exampleServer.closed ∧ noFailure 1 = none ∧
    exampleServer.heartbeat noFailure 1 "alice" "t0" =
      .ok ({ exampleServer with writes := exampleServer.writes ++ [(1, "PING\n")] }, true) ∧
    ∃ s', exampleServer.handleConnectionLoop noFailure 1 "alice" (.error "i/o timeout") "t1"
        = .ok (s', false) ∧
      s'.users = mapDelete exampleServer.users "alice" ∧ mapLookup s'.users "alice" = none ∧
      s'.msgChan = exampleServer.msgChan ++
        [{ Typ := MessageType.TypeSystem, From := "", Target := "",
           Content := "[SYSTEM] " ++ "alice" ++ " left the chat" }] ∧
      exampleServer.history.Add ("[SYSTEM] " ++ "alice" ++ " left the chat") "" "" "t1"
        = .ok s'.history ∧
      s'.history.GetAll.getLast? = some ("[SYSTEM] " ++ "alice" ++ " left the chat") :=
  ⟨rfl, by decide, by decide, rfl,
    idle_timeout_read_teardown exampleServer noFailure 1 "alice" "i/o timeout" "t1" "t0" rfl
      (by decide) (by decide) rfl⟩

/-- C5: when an authenticated handshake names a username that is already a key of the
registry, the registration step writes the one line "ERR001: username already taken" to
the new connection and reports failure, and handleConnection returns (closing the new
connection) with the registry, the queue and the history unchanged; and any sequence of
handshakes returns with the usernames of the registry pairwise distinct and every
existing entry still mapped to the connection it had. -/
theorem duplicate_username_rejected (s : Server) (wr : Conn → Option String)
    (auth : String → String → Bool) (conn : Conn) (rawUser rawPass now : String)
    (ks : List Handshake) (hfree : s.usersMu = false) (hcap : 0 < s.history.capacity)
    (hnodup : (s.users.map Prod.fst).Nodup) :
    (∀ c0, auth (TrimSpace rawUser) (TrimSpace rawPass) = true →
      mapLookup s.users (TrimSpace rawUser) = some c0 →
      s.register wr conn (TrimSpace rawUser) =
        .ok ({ s with writes := s.writes ++ [(conn, "ERR001: username already taken\n")] },
          false) ∧
      s.handleConnection wr auth conn (.ok rawUser) (.ok rawPass) now =
        .ok ({ s with writes := s.writes ++ [(conn, "ERR001: username already taken\n")],
                      closed := s.closed ++ [conn] }, none)) ∧
    ∃ s', s.connects ks = .ok s' ∧ (s'.users.map Prod.fst).Nodup ∧
      ∀ u c, mapLookup s.users u = some c → mapLookup s'.users u = some c := by
  refine ⟨fun c0 hauth htaken => ⟨Server.register_taken s wr conn c0 _ hfree htaken,
    Server.handleConnection_taken s wr auth conn c0 rawUser rawPass now hfree hauth htaken⟩, ?_⟩
  obtain ⟨s', e, _, _, nd, keep⟩ := Server.connects_inv ks s hfree hcap hnodup
  exact ⟨s', e, nd, keep⟩

/-- Witness for C5: a second connection asks for the name alice; in the sequence dave
registers and the name alice is asked for once more. -/
theorem duplicate_username_rejected_witness :
    exampleServer.usersMu = false ∧ 0 < exampleServer.history.capacity ∧
    (exampleServer.users.map Prod.fst).Nodup ∧
    (fun _ _ => true : String → String → Bool) (TrimSpace "alice\n") (TrimSpace "pw\n") = true ∧
    mapLookup exampleServer.users (TrimSpace "alice\n") = some 1 ∧
    (exampleServer.register noFailure 9 (TrimSpace "alice\n") =
        .ok ({ exampleServer with
          writes := exampleServer.writes ++ [(9, "ERR001: username already taken\n")] },
          false) ∧
      exampleServer.handleConnection noFailure (fun _ _ => true) 9 (.ok "alice\n")
          (.ok "pw\n") "t1" =
        .ok ({ exampleServer with
          writes := exampleServer.writes ++ [(9, "ERR001: username already taken\n")],
          closed := exampleServer.closed ++ [9] }, none)) ∧
    ∃ s', exampleServer.connects
        [⟨7, .ok "dave\n", .ok "pw\n", fun _ _ => true, noFailure, "t2"⟩,
         ⟨8, .ok "alice\n", .ok "pw\n", fun _ _ => true, noFailure, "t3"⟩] = .ok s' ∧
      (s'.users.map Prod.fst).Nodup ∧ mapLookup s'.users "alice" = some 1 :=
  ⟨rfl, by decide, by decide, rfl, by decide,
    (duplicate_username_rejected exampleServer noFailure (fun _ _ => true) 9 "alice\n" "pw\n"
      "t1"
      [⟨7, .ok "dave\n", .ok "pw\n", fun _ _ => true, noFailure, "t2"⟩,
       ⟨8, .ok "alice\n", .ok "pw\n", fun _ _ => true, noFailure, "t3"⟩]
      rfl (by decide) (by decide)).1 1 rfl (by decide),
    (duplicate_username_rejected exampleServer noFailure (fun _ _ => true) 9 "alice\n" "pw\n"
      "t1"
      [⟨7, .ok "dave\n", .ok "pw\n", fun _ _ => true, noFailure, "t2"⟩,
       ⟨8, .ok "alice\n", .ok "pw\n", fun _ _ => true, noFailure, "t3"⟩]
      rfl (by decide) (by decide)).2.elim
      (fun s' hh => ⟨s', hh.1, hh.2.1, hh.2.2 "alice" 1 (by decide)⟩)⟩

/-- C6, evaluated: handling "/users" never returns.  handleCommand takes usersMu and then
calls GetUsers, which takes usersMu again; the goroutine blocks on its own lock, whatever
the registry holds, so no line is written and no result is returned. -/
theorem users_command_deadlocks (s : Server) (wr : Conn → Option String) (conn : Conn)
    (username now : String) :
    s.handleCommand wr username "/users" now = .error Fault.deadlock ∧
    s.processInput wr username "/users" now = .error Fault.deadlock ∧
    s.handleConnectionLoop wr conn username (.ok "/users\n") now = .error Fault.deadlock := by
  have hf : Fields "/users" = ["/users"] := by decide
  have hc : s.handleCommand wr username "/users" now = .error Fault.deadlock := by
    unfold Server.handleCommand
    rw [hf]
    cases hmu : s.usersMu <;>
      simp [Server.Lock, Server.GetUsers, hmu, bind, Except.bind]
  have hp : s.processInput wr username "/users" now = .error Fault.deadlock := by
    unfold Server.processInput
    have : HasPrefix "/users" "/" = true := by decide
    rw [if_pos this]; exact hc
  refine ⟨hc, hp, ?_⟩
  unfold Server.handleConnectionLoop
  have ht : TrimSpace "/users\n" = "/users" := by decide
  simp only [ht]
  have hne : ("/users" : String) ≠ "" := by decide
  simp [hne, hp, bind, Except.bind]

/-- C7: the fan-out task of a System or Broadcast message returns and, whatever writes
fail, makes exactly one write of the rendered text plus newline to every registry entry,
logs one line per failed write, and leaves the registry unchanged. -/
theorem fanOut_broadcast_all (s : Server) (wr : Conn → Option String) (msg : Message)
    (hfree : s.usersMu = false)
    (hk : msg.Typ = MessageType.TypeSystem ∨ msg.Typ = MessageType.TypeUser) :
    ∃ s', s.fanOut wr msg = .ok s' ∧
      s'.writes = s.writes ++ s.users.map (fun e => (e.2, msg.String ++ "\n")) ∧
      s'.log = s.log ++ s.users.filterMap (sendFailure s.closed wr) ∧
      s'.users = s.users ∧ s'.closed = s.closed ∧ s'.usersMu = false := by
  have hflt : s.users.filter (addressed msg) = s.users := by
    rw [List.filter_eq_self]
    intro e _
    rcases hk with h | h <;> simp [addressed, h]
  refine ⟨_, Server.fanOut_eq s wr msg hfree, ?_, ?_, rfl, rfl, hfree⟩
  · simp only [hflt]
  · simp only [hflt]

/-- Witness for C7: a broadcast while the write to alice fails. -/
theorem fanOut_broadcast_all_witness :
    exampleServer.usersMu = false ∧
    ((NewUserMessage "bob" "hello").Typ = MessageType.TypeSystem ∨
      (NewUserMessage "bob" "hello").Typ = MessageType.TypeUser) ∧
    ∃ s', exampleServer.fanOut brokenPipe (NewUserMessage "bob" "hello") = .ok s' ∧
      s'.writes = exampleServer.writes ++
        exampleServer.users.map (fun e => (e.2, (NewUserMessage "bob" "hello").String ++ "\n")) ∧
      s'.log = exampleServer.log ++
        exampleServer.users.filterMap (sendFailure exampleServer.closed brokenPipe) ∧
      s'.users = exampleServer.users ∧ s'.closed = exampleServer.closed ∧
      s'.usersMu = false :=
  ⟨rfl, Or.inr rfl,
    fanOut_broadcast_all exampleServer brokenPipe (NewUserMessage "bob" "hello") rfl
      (Or.inr rfl)⟩

/-- C8: for an input line that begins with "/" and whose first field is none of "/pm",
"/history" and "/users", processInput returns the error "ERR005: unknown command <field>"
with the server state unchanged (nothing is queued, the history is untouched), and the
read loop writes that error line to the sender's connection and to no other. -/
theorem unknown_command_error (s : Server) (wr : Conn → Option String) (conn : Conn)
    (username raw input now : String) (hraw : TrimSpace raw = input)
    (hslash : HasPrefix input "/" = true)
    (hpm : (Fields input).head? ≠ some "/pm")
    (hhistory : (Fields input).head? ≠ some "/history")
    (husers : (Fields input).head? ≠ some "/users") :
    ∃ p, (Fields input).head? = some p ∧
      s.processInput wr username input now
        = .ok (s, some ("ERR005: unknown command " ++ p)) ∧
      HasPrefix ("ERR005: unknown command " ++ p) "ERR005" = true ∧
      s.handleConnectionLoop wr conn username (.ok raw) now =
        .ok ({ s with writes := s.writes ++
          [(conn, "ERR005: unknown command " ++ p ++ "\n")] }, true) := by
  have hne := Fields_ne_nil_of_slash input hslash
  cases hf : Fields input with
  | nil => exact absurd hf hne
  | cons p rest =>
    rw [hf] at hpm hhistory husers
    simp only [List.head?_cons, ne_eq, Option.some.injEq] at hpm hhistory husers
    have hproc : s.processInput wr username input now
        = .ok (s, some ("ERR005: unknown command " ++ p)) := by
      unfold Server.processInput
      rw [if_pos hslash]
      unfold Server.handleCommand
      rw [hf]
      simp [hpm, hhistory, husers]
    refine ⟨p, rfl, hproc, ?_, ?_⟩
    · simp [HasPrefix, String.data_append, List.isPrefixOf]
    · have hin : input ≠ "" := by
        intro h0
        rw [h0] at hf
        have hnil : Fields "" = [] := by decide
        rw [hnil] at hf
        exact List.noConfusion hf
      unfold Server.handleConnectionLoop
      simp [hraw, hin, hproc, bind, Except.bind, pure, Except.pure, Server.connWrite]

/-- Witness for C8: alice sends the line "/foo bar". -/
theorem unknown_command_error_witness :
    TrimSpace "/foo bar\n" = "/foo bar" ∧
    HasPrefix "/foo bar" "/" = true ∧ (Fields "/foo bar").head? ≠ some "/pm" ∧
    (Fields "/foo bar").head? ≠ some "/history" ∧ (Fields "/foo bar").head? ≠ some "/users" ∧
    ∃ p, (Fields "/foo bar").head? = some p ∧
      exampleServer.processInput noFailure "alice" "/foo bar" "t1"
        = .ok (exampleServer, some ("ERR005: unknown command " ++ p)) ∧
      HasPrefix ("ERR005: unknown command " ++ p) "ERR005" = true ∧
      exampleServer.handleConnectionLoop noFailure 1 "alice" (.ok "/foo bar\n") "t1" =
        .ok ({ exampleServer with writes := exampleServer.writes ++
          [(1, "ERR005: unknown command " ++ p ++ "\n")] }, true) :=
  ⟨by decide, by decide, by decide, by decide, by decide,
    unknown_command_error exampleServer noFailure 1 "alice" "/foo bar\n" "/foo bar" "t1"
      (by decide) (by decide) (by decide) (by decide) (by decide)⟩

/-- C9: for an input line whose first field is "/pm", handleCommand returns an error
exactly when the line has fewer than three fields; the error is then "ERR004: /pm
requires username and message" and the server state is unchanged (nothing is queued, the
history is untouched). -/
theorem pm_error_iff_short (s : Server) (wr : Conn → Option String)
    (username input now : String) (hpm : (Fields input).head? = some "/pm") :
    ((∃ s' e, s.handleCommand wr username input now = .ok (s', some e)) ↔
      (Fields input).length < 3) ∧
    ((Fields input).length < 3 →
      s.handleCommand wr username input now =
        .ok (s, some "ERR004: /pm requires username and message")) ∧
    HasPrefix "ERR004: /pm requires username and message" "ERR004" = true := by
  cases hf : Fields input with
  | nil => rw [hf] at hpm; simp at hpm
  | cons p rest =>
    rw [hf] at hpm
    simp only [List.head?_cons, Option.some.injEq] at hpm
    subst hpm
    have hshort : (("/pm" :: rest).length < 3) →
        s.handleCommand wr username input now =
          .ok (s, some "ERR004: /pm requires username and message") := by
      intro hl
      unfold Server.handleCommand
      rw [hf]
      simp only [if_true, if_pos hl]
    refine ⟨⟨?_, fun hl => ⟨s, _, hshort hl⟩⟩, hshort, by decide⟩
    rintro ⟨s', e, he⟩
    by_contra hl
    unfold Server.handleCommand at he
    rw [hf] at he
    simp only [if_true, if_neg hl] at he
    cases hi : index ("/pm" :: rest) 1 with
    | error f => simp [hi, bind, Except.bind] at he
    | ok target =>
      simp only [hi, bind, Except.bind] at he
      split at he
      · simp at he
      · simp [pure, Except.pure] at he

/-- Witness for C9: "/pm bob" has two fields. -/
theorem pm_error_iff_short_witness :
    (Fields "/pm bob").head? = some "/pm" ∧ (Fields "/pm bob").length < 3 ∧
    ((∃ s' e, exampleServer.handleCommand noFailure "alice" "/pm bob" "t1" = .ok (s', some e)) ↔
      (Fields "/pm bob").length < 3) ∧
    exampleServer.handleCommand noFailure "alice" "/pm bob" "t1" =
      .ok (exampleServer, some "ERR004: /pm requires username and message") ∧
    HasPrefix "ERR004: /pm requires username and message" "ERR004" = true :=
  ⟨by decide, by decide,
    (pm_error_iff_short exampleServer noFailure "alice" "/pm bob" "t1" (by decide)).1,
    (pm_error_iff_short exampleServer noFailure "alice" "/pm bob" "t1" (by decide)).2.1
      (by decide),
    (pm_error_iff_short exampleServer noFailure "alice" "/pm bob" "t1" (by decide)).2.2⟩

/-- C10: for an input line whose fields are "/pm", T and w1 .. wn with n at least 1, sent
by F to a server whose history has positive capacity, handleCommand returns no error,
enqueues exactly one message, of kind Private with from F, the non-empty target T and the
rendered text "[PRIVATE from F] " followed by w1 .. wn joined by single spaces, and adds
that text to the history with from F and to T. -/
theorem pm_enqueues_private (s : Server) (wr : Conn → Option String)
    (F input now T w : String) (ws : List String)
    (hf : Fields input = "/pm" :: T :: w :: ws) (hcap : 0 < s.history.capacity) :
    ∃ h', s.history.Add ("[PRIVATE from " ++ F ++ "] " ++ Join (w :: ws) " ") F T now = .ok h' ∧
      s.handleCommand wr F input now =
        .ok ({ s with
          msgChan := s.msgChan ++
            [{ Typ := MessageType.TypePrivate, From := F, Target := T,
               Content := "[PRIVATE from " ++ F ++ "] " ++ Join (w :: ws) " " }],
          history := h' }, none) ∧
      T ≠ "" ∧
      h'.GetAll.getLast? = some ("[PRIVATE from " ++ F ++ "] " ++ Join (w :: ws) " ") ∧
      h'.db = (s.history.db.SaveMessage F T
        ("[PRIVATE from " ++ F ++ "] " ++ Join (w :: ws) " ") now).1 := by
  obtain ⟨h', a, _, l, d⟩ := History.Add_of_pos s.history hcap
    ("[PRIVATE from " ++ F ++ "] " ++ Join (w :: ws) " ") F T now
  refine ⟨h', a, ?_, ?_, l, d⟩
  · unfold Server.handleCommand
    rw [hf]
    simp [index, bind, Except.bind, pure, Except.pure, Server.send, NewPrivateMessage,
      Message.String, a]
  · apply Fields_mem_ne_empty input T
    rw [hf]; simp

/-- Witness for C10: alice sends "/pm bob secret", which yields
"[PRIVATE from alice] secret". -/
theorem pm_enqueues_private_witness :
    Fields "/pm bob secret" = "/pm" :: "bob" :: "secret" :: [] ∧
    0 < exampleServer.history.capacity ∧
    "[PRIVATE from " ++ "alice" ++ "] " ++ Join ("secret" :: []) " "
      = "[PRIVATE from alice] secret" ∧
    ∃ h', exampleServer.history.Add
        ("[PRIVATE from " ++ "alice" ++ "] " ++ Join ("secret" :: []) " ") "alice" "bob" "t1"
        = .ok h' ∧
      exampleServer.handleCommand noFailure "alice" "/pm bob secret" "t1" =
        .ok ({ exampleServer with
          msgChan := exampleServer.msgChan ++
            [{ Typ := MessageType.TypePrivate, From := "alice", Target := "bob",
               Content := "[PRIVATE from " ++ "alice" ++ "] " ++ Join ("secret" :: []) " " }],
          history := h' }, none) ∧
      "bob" ≠ "" ∧
      h'.GetAll.getLast? =
        some ("[PRIVATE from " ++ "alice" ++ "] " ++ Join ("secret" :: []) " ") ∧
      h'.db = (exampleServer.history.db.SaveMessage "alice" "bob"
        ("[PRIVATE from " ++ "alice" ++ "] " ++ Join ("secret" :: []) " ") "t1").1 :=
  ⟨by decide, by decide, by decide,
    pm_enqueues_private exampleServer noFailure "alice" "/pm bob secret" "t1" "bob" "secret" []
      (by decide) (by decide)⟩

/-! ## Auxiliary lemmas: loading from the store -/

theorem foldl_prepend_eq {α β : Type} (f : α → β) (rows : List α) : ∀ acc : List β,
    rows.foldl (fun messages r => f r :: messages) acc = (rows.map f).reverse ++ acc := by
  induction rows with
  | nil => intro acc; rfl
  | cons r rest ih => intro acc; simp [List.foldl, ih]

theorem lastN_map {α β : Type} (f : α → β) (k : Nat) (l : List α) :
    lastN k (l.map f) = (lastN k l).map f := by
  simp [lastN, List.map_drop]

theorem lastN_min_length {α : Type} (k : Nat) (l : List α) :
    lastN (min k l.length) l = lastN k l := by
  unfold lastN
  congr 1
  omega

theorem getElem?_lastN {α : Type} (k : Nat) (l : List α) (i : Nat) :
    (lastN k l)[i]? = if i < min k l.length then l[l.length - min k l.length + i]? else none := by
  unfold lastN
  rw [List.getElem?_drop]
  by_cases h : i < min k l.length
  · rw [if_pos h]
    congr 1
    omega
  · rw [if_neg h]
    apply List.getElem?_eq_none
    omega

theorem DB.LoadRecentMessages_ok (db : DB) (c : Nat) (hok : db.nextFails = false) :
    db.LoadRecentMessages (c : Int) =
      ({ db with faults := db.faults.tail }, .ok ((lastN c db.messages).map formatRow)) := by
  have hrows : (db.messages.reverse.take c).foldl (fun messages r => formatRow r :: messages) []
      = (lastN c db.messages).map formatRow := by
    rw [foldl_prepend_eq, List.take_reverse]
    simp [lastN]
  have hneg : ¬ ((c : Int) < 0) := by omega
  unfold DB.LoadRecentMessages
  cases hf : db.faults with
  | nil => simp [hneg, hrows]
  | cons o rest =>
    cases o with
    | none => simp [hneg, hrows]
    | some e => simp [DB.nextFails, hf] at hok

theorem DB.LoadRecentMessages_error (db : DB) (limit : Int) (hfail : db.nextFails = true) :
    ∃ e, db.LoadRecentMessages limit = ({ db with faults := db.faults.tail }, .error e) := by
  unfold DB.LoadRecentMessages
  cases hf : db.faults with
  | nil => simp [DB.nextFails, hf] at hfail
  | cons o rest =>
    cases o with
    | none => simp [DB.nextFails, hf] at hfail
    | some e => exact ⟨_, rfl⟩

theorem History.Add_db (h h' : History) (msg frm dst ts : String)
    (hadd : h.Add msg frm dst ts = .ok h') :
    h'.db = (h.db.SaveMessage frm dst msg ts).1 ∧ h'.capacity = h.capacity := by
  unfold History.Add at hadd
  split at hadd
  · exact absurd hadd (fun e => Except.noConfusion e)
  · rcases hs : h.db.SaveMessage frm dst msg ts with ⟨db, _ | err⟩
    · simp only [hs] at hadd
      injection hadd with hadd
      subst hadd
      exact ⟨rfl, rfl⟩
    · simp only [hs] at hadd
      injection hadd with hadd
      subst hadd
      exact ⟨rfl, rfl⟩

/-- On a store whose statements all succeed, a sequence of `Add` calls appends one row
per call. -/
theorem History.addAll_store (adds : List AddCall) : ∀ h h' : History,
    h.db.faults = [] → h.addAll adds = .ok h' →
    h'.db = { messages := h.db.messages ++ adds.map AddCall.row, faults := [] } := by
  induction adds with
  | nil =>
    intro h h' hf hrun
    simp only [History.addAll] at hrun
    injection hrun with hrun
    subst hrun
    cases hdb : h.db with
    | mk m f => rw [hdb] at hf; simp at hf; simp [hf]
  | cons a rest ih =>
    intro h h' hf hrun
    simp only [History.addAll] at hrun
    cases hadd : h.Add a.msg a.frm a.dst a.timestamp with
    | error f => simp [hadd] at hrun
    | ok h1 =>
      simp only [hadd] at hrun
      have hdb := (History.Add_db h h1 _ _ _ _ hadd).1
      have hdb1 : h1.db = { messages := h.db.messages ++ [a.row], faults := [] } := by
        rw [hdb]
        simp [DB.SaveMessage, hf, AddCall.row]
      have := ih h1 h' (by rw [hdb1]) hrun
      rw [this, hdb1]
      simp

theorem History.New_eq (allocCap : Nat) (db : DB) (c : Nat) (halloc : c ≤ allocCap)
    (hmax : c ≤ makesliceMaxCap) :
    History.New allocCap (c : Int) db = .ok
      (if db.nextFails then
        { messages := [], capacity := (c : Int), db := { db with faults := db.faults.tail },
          stdout := ["Failed to load history from DB: " ++
            (match db.faults.head? with
             | some (some e) => "failed to load recent messages: " ++ e
             | _ => "") ++ "\n"] }
      else
        { messages := (lastN c db.messages).map formatRow, capacity := (c : Int),
          db := { db with faults := db.faults.tail }, stdout := [] }) := by
  have hneg : ¬ ((c : Int) < 0 ∨ (c : Int) > ((min allocCap makesliceMaxCap : Nat) : Int)) := by
    omega
  unfold History.New
  rw [if_neg hneg]
  cases hnf : db.nextFails with
  | false =>
    simp [History.loadFromDB, DB.LoadRecentMessages_ok db c hnf]
  | true =>
    cases hf : db.faults with
    | nil => simp [DB.nextFails, hf] at hnf
    | cons o rest =>
      cases o with
      | none => simp [DB.nextFails, hf] at hnf
      | some e => simp [History.loadFromDB, DB.LoadRecentMessages, hf]

theorem History.New_panics (allocCap : Nat) (db : DB) (big : Nat)
    (hbig : min allocCap makesliceMaxCap < big) :
    History.New allocCap (big : Int) db = .error Fault.panic := by
  have hpos : (big : Int) < 0 ∨ (big : Int) > ((min allocCap makesliceMaxCap : Nat) : Int) := by
    omega
  unfold History.New
  rw [if_pos hpos]

/-! ## Claims on construction, restart and presence -/

/-- C11, counterexample: with capacity 2^47 the call `make([]string, 0, capacity)` in New
panics, so no history is constructed from a store that holds one record. -/
theorem New_large_capacity_counterexample :
    History.New makesliceMaxCap 140737488355328
      { messages := [⟨"alice", "", "[alice] hi", "t1"⟩], faults := [] } = .error Fault.panic := by
  decide

/-- C11 (amended): for a store holding n records in append order and a capacity c from 0
up to the largest capacity that make can allocate (at most 2^44 on a 64-bit platform),
New returns a history of capacity c; when the load succeeds it holds exactly min(c, n)
entries, the i-th being formatted from record number n - min(c, n) + i, that is the most
recent min(c, n) records oldest first; when the load returns an error it is empty.  Above
that bound New panics. -/
theorem New_loads_most_recent (allocCap : Nat) (db : DB) (c : Nat) (halloc : c ≤ allocCap)
    (hmax : c ≤ makesliceMaxCap) :
    (∃ h, History.New allocCap (c : Int) db = .ok h ∧ h.capacity = (c : Int) ∧
      ((∃ e, (db.LoadRecentMessages (c : Int)).2 = .error e) ↔ db.nextFails = true) ∧
      h.GetAll = (if db.nextFails then []
        else (lastN (min c db.messages.length) db.messages).map formatRow) ∧
      h.GetAll.length = (if db.nextFails then 0 else min c db.messages.length) ∧
      ∀ i, h.GetAll[i]? =
        if db.nextFails = false ∧ i < min c db.messages.length then
          (db.messages[db.messages.length - min c db.messages.length + i]?).map formatRow
        else none) ∧
    ∀ big : Nat, min allocCap makesliceMaxCap < big →
      History.New allocCap (big : Int) db = .error Fault.panic := by
  refine ⟨⟨_, History.New_eq allocCap db c halloc hmax, ?_, ?_, ?_, ?_, ?_⟩,
    fun big hbig => History.New_panics allocCap db big hbig⟩
  · cases hnf : db.nextFails <;> simp
  · cases hnf : db.nextFails with
    | false => simp [DB.LoadRecentMessages_ok db c hnf]
    | true =>
      obtain ⟨e, he⟩ := DB.LoadRecentMessages_error db (c : Int) hnf
      simp [he]
  · cases hnf : db.nextFails <;> simp [History.GetAll, lastN_min_length]
  · cases hnf : db.nextFails <;> simp [History.GetAll, length_lastN]
  · intro i
    cases hnf : db.nextFails with
    | false =>
      simp only [History.GetAll, Bool.false_eq_true, if_false, List.getElem?_map,
        getElem?_lastN, true_and]
      by_cases hi : i < min c db.messages.length
      · simp [hi]
      · simp [hi]
    | true => simp [History.GetAll]

/-- Witness for C11 (amended): capacity 2 over a store of three records, on a machine
that can allocate a thousand entries; capacity 2^47 panics. -/
theorem New_loads_most_recent_witness :
    (2 ≤ 1000) ∧ (2 ≤ makesliceMaxCap) ∧ min 1000 makesliceMaxCap < 140737488355328 ∧
    (∃ h, History.New 1000 ((2 : Nat) : Int)
        { messages := [⟨"alice", "", "m1", "t1"⟩, ⟨"bob", "", "m2", "t2"⟩,
            ⟨"alice", "bob", "m3", "t3"⟩], faults := [] } = .ok h ∧
      h.capacity = 2 ∧ h.GetAll = ["[t2] m2", "[t3] m3"] ∧ h.GetAll.length = 2 ∧
      h.GetAll[0]? = some "[t2] m2") ∧
    History.New 1000 ((140737488355328 : Nat) : Int)
        { messages := [⟨"alice", "", "m1", "t1"⟩, ⟨"bob", "", "m2", "t2"⟩,
            ⟨"alice", "bob", "m3", "t3"⟩], faults := [] } = .error Fault.panic :=
  ⟨by decide, by decide, by decide,
    (New_loads_most_recent 1000
      { messages := [⟨"alice", "", "m1", "t1"⟩, ⟨"bob", "", "m2", "t2"⟩,
          ⟨"alice", "bob", "m3", "t3"⟩], faults := [] } 2 (by decide) (by decide)).1.elim
      (fun h r => ⟨h, r.1, r.2.1, r.2.2.2.1.trans (by decide), r.2.2.2.2.1.trans (by decide),
        (r.2.2.2.2.2 0).trans (by decide)⟩),
    (New_loads_most_recent 1000
      { messages := [⟨"alice", "", "m1", "t1"⟩, ⟨"bob", "", "m2", "t2"⟩,
          ⟨"alice", "bob", "m3", "t3"⟩], faults := [] } 2 (by decide) (by decide)).2
      140737488355328 (by decide)⟩

/-- C12, counterexample: one Add on a history of capacity 3 over an empty store; the old
history returns the rendered text, the history constructed from the same store returns
that text behind its bracketed timestamp. -/
theorem restart_round_trip_counterexample :
    ((History.New 1000 3 { messages := [], faults := [] }).bind (fun h0 =>
      (h0.addAll [⟨"[alice] hi", "alice", "", "2024-05-01 10:00:00"⟩]).bind (fun h1 =>
        (History.New 1000 3 h1.db).map (fun h2 => (h1.GetAll, h2.GetAll))))) =
      .ok (["[alice] hi"], ["[2024-05-01 10:00:00] [alice] hi"]) ∧
    ["[alice] hi"] ≠ ["[2024-05-01 10:00:00] [alice] hi"] := by
  decide

/-- C12 (amended): for a capacity c from 1 up to the largest capacity that make can
allocate (at most 2^44 on a 64-bit platform) and any sequence of Add calls on a history
over an initially empty store whose statements all succeed, the old history returns the
rendered texts of the last min(c, n) calls, and a history constructed from the same store
with capacity c returns, for the same calls in the same order, each text behind its
bracketed timestamp, "[timestamp] text". -/
theorem restart_reload_formats (allocCap c : Nat) (hc : 1 ≤ c) (halloc : c ≤ allocCap)
    (hmax : c ≤ makesliceMaxCap) (adds : List AddCall) :
    ∃ h0 h1 h2, History.New allocCap (c : Int) { messages := [], faults := [] } = .ok h0 ∧
      h0.addAll adds = .ok h1 ∧ History.New allocCap (c : Int) h1.db = .ok h2 ∧
      h1.GetAll = (lastN (min c adds.length) adds).map AddCall.msg ∧
      h2.GetAll = (lastN (min c adds.length) adds).map AddCall.reloaded ∧
      h2.GetAll = h1.GetAll.zipWith (fun text a => "[" ++ a.timestamp ++ "] " ++ text)
        (lastN (min c adds.length) adds) := by
  have e0 : History.New allocCap (c : Int) { messages := [], faults := [] } = .ok
      { messages := [], capacity := (c : Int), db := { messages := [], faults := [] },
        stdout := [] } := by
    have h := History.New_eq allocCap { messages := [], faults := [] } c halloc hmax
    simpa [DB.nextFails, lastN] using h
  obtain ⟨h1, e1, m1, _⟩ := History.addAll_ok c hc adds
    { messages := [], capacity := (c : Int), db := { messages := [], faults := [] },
      stdout := [] } rfl (Nat.zero_le c)
  have hdb := History.addAll_store adds _ h1 rfl e1
  have e2 := History.New_eq allocCap h1.db c halloc hmax
  have hnf : h1.db.nextFails = false := by rw [hdb]; rfl
  rw [hnf] at e2
  simp only [Bool.false_eq_true, if_false] at e2
  have g1 : h1.GetAll = (lastN (min c adds.length) adds).map AddCall.msg := by
    unfold History.GetAll
    rw [m1, lastN_min_length]
    simp [lastN_map]
  have g2 : (lastN c h1.db.messages).map formatRow
      = (lastN (min c adds.length) adds).map AddCall.reloaded := by
    rw [hdb, lastN_min_length]
    simp only [List.nil_append, lastN_map, List.map_map]
    rfl
  refine ⟨_, h1, _, e0, e1, e2, g1, g2, ?_⟩
  show (lastN c h1.db.messages).map formatRow = _
  rw [g2, g1, List.zipWith_map_left, List.zipWith_same]
  rfl

/-- Witness for C12 (amended): capacity 2 and three Add calls. -/
theorem restart_reload_formats_witness :
    (1 ≤ 2) ∧ (2 ≤ 1000) ∧ (2 ≤ makesliceMaxCap) ∧
    ∃ h0 h1 h2, History.New 1000 ((2 : Nat) : Int) { messages := [], faults := [] } = .ok h0 ∧
      h0.addAll [⟨"[SYSTEM] alice joined the chat", "", "", "t1"⟩,
        ⟨"[alice] hi", "alice", "", "t2"⟩,
        ⟨"[PRIVATE from alice] secret", "alice", "bob", "t3"⟩] = .ok h1 ∧
      History.New 1000 ((2 : Nat) : Int) h1.db = .ok h2 ∧
      h1.GetAll = ["[alice] hi", "[PRIVATE from alice] secret"] ∧
      h2.GetAll = ["[t2] [alice] hi", "[t3] [PRIVATE from alice] secret"] :=
  ⟨by decide, by decide, by decide,
    (restart_reload_formats 1000 2 (by decide) (by decide) (by decide)
      [⟨"[SYSTEM] alice joined the chat", "", "", "t1"⟩, ⟨"[alice] hi", "alice", "", "t2"⟩,
       ⟨"[PRIVATE from alice] secret", "alice", "bob", "t3"⟩]).elim
      (fun h0 r0 => r0.elim (fun h1 r1 => r1.elim (fun h2 r2 =>
        ⟨h0, h1, h2, r2.1, r2.2.1, r2.2.2.1, r2.2.2.2.1.trans (by decide),
          r2.2.2.2.2.1.trans (by decide)⟩)))⟩

theorem utf8_replicate_a_length (n : Nat) :
    ((List.replicate n 'a').flatMap String.utf8EncodeChar).length = n := by
  induction n with
  | zero => rfl
  | succ k ih =>
    have h1 : (String.utf8EncodeChar 'a').length = 1 := by decide
    rw [List.replicate_succ, List.flatMap_cons, List.length_append, ih, h1]
    omega

theorem utf8_longName_length : (utf8 longName).length = 1025 :=
  utf8_replicate_a_length 1025

theorem take_copyBytes_poolGet (src : List UInt8) (h : src.length ≤ 1024) :
    (copyBytes poolGet src).take src.length = src := by
  have hl : poolGet.length = 1024 := List.length_replicate 1024 0
  unfold copyBytes
  rw [hl, Nat.min_eq_right h, List.take_of_length_le (Nat.le_refl _), List.take_append_of_le_length
    (Nat.le_refl _), List.take_of_length_le (Nat.le_refl _)]

theorem length_copyBytes_poolGet (src : List UInt8) : (copyBytes poolGet src).length = 1024 := by
  have hl : poolGet.length = 1024 := List.length_replicate 1024 0
  unfold copyBytes
  rw [hl, List.length_append, List.length_take, List.length_drop, hl]
  omega

/-- C13, evaluated: one pass of the Broadcaster loop emits exactly one payload, the bytes
of the usernames joined by ",", and goes on after a failed send, when the joined list has
at most 1024 bytes; for a longer list the slice expression on the 1024-byte buffer panics
and nothing is emitted, as for a single username of 1025 letters. -/
theorem broadcaster_pass (b : Broadcaster) (users : List String) (writeErr : Option String) :
    b.Start (some users) writeErr =
      (if (utf8 (Join users ",")).length ≤ 1024 then
        .ok { sent := b.sent ++ [utf8 (Join users ",")],
              log := b.log ++ (match writeErr with
                | some err => ["ERROR: " ++ ("UDP broadcast failed: " ++ err)]
                | none => []) }
      else .error Fault.panic) ∧
    b.Start (some [longName]) writeErr = .error Fault.panic := by
  have gen : ∀ us : List String, b.Start (some us) writeErr =
      (if (utf8 (Join us ",")).length ≤ 1024 then
        .ok { sent := b.sent ++ [utf8 (Join us ",")],
              log := b.log ++ (match writeErr with
                | some err => ["ERROR: " ++ ("UDP broadcast failed: " ++ err)]
                | none => []) }
      else .error Fault.panic) := by
    intro us
    unfold Broadcaster.Start
    by_cases hlen : (utf8 (Join us ",")).length ≤ 1024
    · rw [if_pos hlen]
      have hs : sliceTo (copyBytes poolGet (utf8 (Join us ","))) (utf8 (Join us ",")).length
          = .ok (utf8 (Join us ",")) := by
        unfold sliceTo
        rw [length_copyBytes_poolGet, if_neg (by omega), take_copyBytes_poolGet _ hlen]
      simp only [hs]
      cases writeErr <;> simp
    · rw [if_neg hlen]
      have hs : sliceTo (copyBytes poolGet (utf8 (Join us ","))) (utf8 (Join us ",")).length
          = .error Fault.panic := by
        unfold sliceTo
        rw [length_copyBytes_poolGet, if_pos (by omega)]
      simp only [hs]
  refine ⟨gen users, ?_⟩
  rw [gen [longName]]
  have : Join [longName] "," = longName := rfl
  rw [this, utf8_longName_length]
  rfl

/-- C14, evaluated: alice registers on connection 1 and her read fails; a new session
registers as alice on connection 2; the heartbeat of the first session then fails to
write on its closed connection and deletes the name alice, which removes the entry of
the second session although connection 2 is open. -/
theorem stale_heartbeat_removes_new_session :
    ((NewServer exampleHistory).handleConnection noFailure (fun _ _ => true) 1 (.ok "alice\n")
        (.ok "pw\n") "t1").bind (fun r1 =>
      (r1.1.handleConnectionLoop noFailure 1 "alice" (.error "EOF") "t2").bind (fun r2 =>
        (r2.1.handleConnection noFailure (fun _ _ => true) 2 (.ok "alice\n") (.ok "pw\n")
            "t3").map (fun r3 => (r2.1.closed, r3.1.users, r3.2)))) =
      .ok ([1], [("alice", 2)], some "alice") ∧
    ((NewServer exampleHistory).handleConnection noFailure (fun _ _ => true) 1 (.ok "alice\n")
        (.ok "pw\n") "t1").bind (fun r1 =>
      (r1.1.handleConnectionLoop noFailure 1 "alice" (.error "EOF") "t2").bind (fun r2 =>
        (r2.1.handleConnection noFailure (fun _ _ => true) 2 (.ok "alice\n") (.ok "pw\n")
            "t3").bind (fun r3 =>
          (r3.1.heartbeat noFailure 1 "alice" "t4").map (fun r4 =>
            (r4.1.users, r4.1.closed))))) =
      .ok ([], [1]) := by
  decide

/-- C15, evaluated: after alice sends "/pm bob secret", carol's "/history" command and
the join-time replay to a new session dave both write "[PRIVATE from alice] secret" to
connections that are neither alice's nor bob's; without the private message carol's
"/history" writes nothing. -/
theorem history_replay_leaks_private :
    ((exampleServer.handleCommand noFailure "alice" "/pm bob secret" "t1").bind (fun r1 =>
      (r1.1.handleCommand noFailure "carol" "/history" "t2").map (fun r2 => r2.1.writes))) =
      .ok [(3, "[PRIVATE from alice] secret\n")] ∧
    ((exampleServer.handleCommand noFailure "alice" "/pm bob secret" "t1").bind (fun r1 =>
      (r1.1.handleConnection noFailure (fun _ _ => true) 9 (.ok "dave\n") (.ok "pw\n")
        "t2").map (fun r2 => (r2.2, r2.1.writes)))) =
      .ok (some "dave", [(9, "[PRIVATE from alice] secret\n")]) ∧
    (exampleServer.handleCommand noFailure "carol" "/history" "t2").map (fun r => r.1.writes) =
      .ok [] := by
  decide

/-- C16, evaluated: the line "PONG" does not begin with "/", so processInput treats it as
chat: it enqueues the broadcast message "[<sender>] PONG" and adds it to the history. -/
theorem pong_is_broadcast (s : Server) (wr : Conn → Option String) (username now : String) :
    (NewUserMessage username "PONG").String = "[" ++ username ++ "] " ++ "PONG" ∧
    s.processInput wr username "PONG" now =
      (s.history.Add (NewUserMessage username "PONG").String username "" now).map
        (fun h => ({ s with msgChan := s.msgChan ++ [NewUserMessage username "PONG"],
                            history := h }, none)) ∧
    (exampleServer.handleConnectionLoop noFailure 1 "alice" (.ok "PONG\n") "t1").map
      (fun r => (r.1.msgChan, r.1.history.GetAll, r.1.history.db.messages)) =
      .ok ([NewUserMessage "alice" "PONG"], ["[alice] PONG"],
        [⟨"alice", "", "[alice] PONG", "t1"⟩]) := by
  refine ⟨rfl, ?_, by decide⟩
  unfold Server.processInput
  have hp : HasPrefix "PONG" "/" = false := by decide
  simp only [hp, Bool.false_eq_true, if_false, bind, Except.bind, Server.send, pure,
    Except.pure]
  cases s.history.Add (NewUserMessage username "PONG").String username "" now <;> rfl

end Chat
